import Mathlib

/-!
Shallow embedding of the News repository (Admintepilora/News): the article
data model, the MongoDB / ClickHouse persistence helpers in db_utils.py and
clickhouse_utils.py, the article post-processing in DuckDuckGoApiNews.py,
the keyword search in main.py, and the Tor proxy configuration readers in
configTorProxies.py and proxy_utils.py.

Modelling conventions:
- A MongoDB date value is either still a string or an actual datetime; we
  model this with the type DVal.  Datetimes are integers (epoch seconds).
  The external date parser (pandas to_datetime and the MongoDB toDate
  operator) is an uninterpreted parameter p : String -> Int.
- Documents and rows use the fixed article schema of the repository
  (url, title, body, date, source, searchKey, image).  A pandas DataFrame
  is a list of such records together with the list of column names that
  are actually present; the code only ever tests column presence and reads
  whole columns of this schema.
- Database stores are lists of records; a read query is evaluated against
  the list, a write appends or updates in place.  Network failure of a
  write call is modelled by a boolean oracle indexed by attempt number.
-/

namespace News

/-- A cell of the date column: either a raw string or a parsed datetime
(epoch seconds). -/
inductive DVal where
  | str (s : String)
  | dt (t : Int)
deriving DecidableEq, Repr

/-- Coerce a date cell to a datetime integer using parser p
(pandas to_datetime / MongoDB toDate). -/
def DVal.toDt (p : String → Int) : DVal → Int
  | .str s => p s
  | .dt t => t

/-- True when the cell is still a raw string. -/
def DVal.isStr : DVal → Bool
  | .str _ => true
  | .dt _ => false

/-- An article record with the repository's fixed schema. -/
structure Article where
  url : String
  title : String
  body : String
  date : DVal
  source : String
  searchKey : Option String
  image : Option String
deriving DecidableEq, Repr

/-- Apply the date parser to an article (the df column assignment
df date = to_datetime of df date). -/
def setDate (p : String → Int) (a : Article) : Article :=
  { a with date := .dt (a.date.toDt p) }

/-- A pandas DataFrame over the article schema: the columns present plus
the row records. -/
structure DataFrame where
  cols : List String
  rows : List Article
deriving DecidableEq, Repr

/-- pandas DataFrame.empty: true when there are no rows or no columns. -/
def DataFrame.isEmpty (d : DataFrame) : Bool :=
  d.rows.isEmpty || d.cols.isEmpty

/-- The four columns save_articles_to_db and save_articles_to_clickhouse
require. -/
def requiredCols : List String := ["url", "title", "body", "date"]

/-- All required columns are present in the DataFrame. -/
def hasRequiredCols (d : DataFrame) : Bool :=
  requiredCols.all (fun c => d.cols.contains c)

/-- Coerce the whole date column of a DataFrame. -/
def setDateCol (p : String → Int) (d : DataFrame) : DataFrame :=
  { d with rows := d.rows.map (setDate p) }

/-- Number of records in a store whose url equals u. -/
def countUrl (l : List Article) (u : String) : Nat :=
  (l.filter (fun a => a.url = u)).length

/-- The combined persistent state: the MongoDB News collection and the
ClickHouse news table, each a list of records. -/
structure DBs where
  mongo : List Article
  ch : List Article
deriving DecidableEq, Repr

/-! ### MongoDB bulk upsert semantics (pymongo UpdateOne with upsert=True)

Each operation filters on the article's url and sets all of the article's
fields.  MongoDB applies the update to the first matching document, or
inserts when none matches.  bulk_write returns upserted_count plus
modified_count; a matched document whose fields already equal the new
values is matched but not modified. -/

/-- Apply one UpdateOne(filter = url, set = all fields, upsert = True) to
the collection.  Returns the new collection, the upserted increment and
the modified increment. -/
def mongoUpsert : List Article → Article → List Article × Nat × Nat
  | [], a => ([a], 1, 0)
  | x :: t, a =>
    if x.url = a.url then
      (a :: t, 0, if x = a then 0 else 1)
    else
      let r := mongoUpsert t a
      (x :: r.1, r.2)

/-- Apply a list of upsert operations in order (collection.bulk_write),
accumulating upserted and modified counts. -/
def applyBulkOps : List Article → List Article → List Article × Nat × Nat
  | coll, [] => (coll, 0, 0)
  | coll, a :: t =>
    let r1 := mongoUpsert coll a
    let r2 := applyBulkOps r1.1 t
    (r2.1, r1.2.1 + r2.2.1, r1.2.2 + r2.2.2)

/-! ### save_articles_to_db (db_utils.py)

The input may be None, a list of records, or a DataFrame.  For the list
input the pandas conversion can in principle raise; that external outcome
is the convOk flag.  The single collection.bulk_write call has no retry
logic around it: its network outcome is mOracle applied to the attempt
index (only index 0 is ever consulted), and a failure propagates as an
exception (Except.error).  The second component of the result counts the
bulk_write calls issued. -/

/-- The articles argument of the save functions. -/
inductive ArticlesIn where
  | noneIn
  | listIn (cols : List String) (rs : List Article) (convOk : Bool)
  | dfIn (d : DataFrame)
deriving Repr

/-- Convert the input to a DataFrame as save_articles_to_db does after its
emptiness checks (pd.DataFrame on a list, copy on a DataFrame). -/
def ArticlesIn.toDf : ArticlesIn → Option DataFrame
  | .noneIn => none
  | .listIn cols rs convOk => if convOk then some ⟨cols, rs⟩ else none
  | .dfIn d => some d

/-- True when the input is None, an empty list, or an empty DataFrame
(the first guard of save_articles_to_db). -/
def ArticlesIn.isEmptyIn : ArticlesIn → Bool
  | .noneIn => true
  | .listIn _ rs _ => rs.isEmpty
  | .dfIn d => d.isEmpty

/-- Core of save_articles_to_db once a DataFrame exists: check required
columns, coerce the date column, build one upsert per row and issue a
single bulk_write whose outcome is mOracle 0. -/
def saveDfToMongo (p : String → Int) (mOracle : Nat → Bool)
    (coll : List Article) (df : DataFrame) :
    Except Unit (List Article × Nat) × Nat :=
  if hasRequiredCols df then
    let df2 := setDateCol p df
    let ops := df2.rows
    if ops.length > 0 then
      if mOracle 0 then
        let r := applyBulkOps coll ops
        (.ok (r.1, r.2.1 + r.2.2), 1)
      else
        (.error (), 1)
    else
      (.ok (coll, 0), 0)
  else
    (.ok (coll, 0), 0)

/-- save_articles_to_db with the bulk-write outcome made explicit.
Returns Except.error when the unprotected bulk_write raises, and the
number of bulk_write calls issued. -/
def save_articles_to_db_exc (p : String → Int) (mOracle : Nat → Bool)
    (coll : List Article) (input : ArticlesIn) :
    Except Unit (List Article × Nat) × Nat :=
  if input.isEmptyIn then
    (.ok (coll, 0), 0)
  else
    match input.toDf with
    | none => (.ok (coll, 0), 0)
    | some df => saveDfToMongo p mOracle coll df

/-- save_articles_to_db on the happy path (the bulk write succeeds). -/
def save_articles_to_db (p : String → Int) (coll : List Article)
    (input : ArticlesIn) : List Article × Nat :=
  ((save_articles_to_db_exc p (fun _ => true) coll input).1).toOption.getD (coll, 0)

/-! ### ensure_date_format (db_utils.py)

update_many with filter date-is-string and pipeline set date := toDate of
date.  Every matched document changes type, hence counts as modified. -/

/-- Fix string dates in the News collection; returns the new collection
and modified_count. -/
def ensure_date_format (p : String → Int) (coll : List Article) :
    List Article × Nat :=
  (coll.map (fun a =>
      match a.date with
      | .str s => { a with date := .dt (p s) }
      | .dt _ => a),
   (coll.filter (fun a => a.date.isStr)).length)

/-! ### get_existing_urls (db_utils.py): deprecated stub -/

/-- Deprecated: logs a warning and returns the empty set without touching
either store (the dbs argument records that no query is issued). -/
def get_existing_urls (dbs : DBs) (mongodb clickhouse : Bool)
    (mongodb_collection clickhouse_table : String) (max_urls : Nat) :
    Finset String :=
  ∅

/-! ### URL chunking (the range-and-slice loops in check_urls_exist and
save_articles_to_clickhouse, chunk size 1000) -/

/-- Split a list into consecutive chunks of size n, using fuel for
termination; chunksOf supplies fuel equal to the length. -/
def chunksGo (n : Nat) : Nat → List α → List (List α)
  | 0, _ => []
  | _, [] => []
  | fuel + 1, l => l.take n :: chunksGo n fuel (l.drop n)

/-- The chunks of size n of a list (for i in range of 0, len, n with
slicing). -/
def chunksOf (n : Nat) (l : List α) : List (List α) :=
  chunksGo n l.length l

/-! ### check_urls_exist (db_utils.py)

Environment switches: chImport is CLICKHOUSE_AVAILABLE (the import
succeeded) and chEnv is the USE_CLICKHOUSE environment variable. -/

/-- The runtime environment switches read by the db helpers. -/
structure Env where
  chImport : Bool
  chEnv : Bool
deriving Repr

/-- The MongoDB read query of check_urls_exist: find url in
urls_to_check, projected to url. -/
def mongoUrlQuery (mongo : List Article) (urls : List String) : List String :=
  (mongo.filter (fun a => urls.contains a.url)).map (fun a => a.url)

/-- The ClickHouse read query for one chunk: select url where url in the
chunk. -/
def chUrlQuery (ch : List Article) (chunk : List String) : List String :=
  (ch.filter (fun a => chunk.contains a.url)).map (fun a => a.url)

/-- check_urls_exist: the set of the batch's URLs already present, found
by one MongoDB query plus one chunked ClickHouse query (chunk size
1000). -/
def check_urls_exist (env : Env) (dbs : DBs) (urls_to_check : List String)
    (mongodb clickhouse : Bool) : Finset String :=
  if urls_to_check.isEmpty then ∅
  else
    let mongoUrls : Finset String :=
      if mongodb then (mongoUrlQuery dbs.mongo urls_to_check).toFinset else ∅
    let chUrls : Finset String :=
      if clickhouse && env.chImport && env.chEnv then
        (chunksOf 1000 urls_to_check).foldl
          (fun acc chunk => acc ∪ (chUrlQuery dbs.ch chunk).toFinset) ∅
      else ∅
    mongoUrls ∪ chUrls

/-! ### save_articles_to_clickhouse (clickhouse_utils.py)

clean_article normalises one record before insertion: text fields become
strings (already strings in this model) and the date is coerced to a
datetime.  Insertion proceeds in batches of batch_size; each batch is
attempted up to retry_attempts times against the network oracle
chOracle batchIndex attempt, and after the final failed attempt the loop
moves to the next batch.  A failed attempt inserts nothing. -/

/-- clean_article: coerce the date, keep the other fields (text fields
are total strings in this model, so str of x is x). -/
def cleanArticle (p : String → Int) (a : Article) : Article :=
  setDate p a

/-- First attempt index below attempts accepted by the oracle, if any
(the inner retry loop). -/
def firstSuccess (f : Nat → Bool) : Nat → Option Nat
  | 0 => none
  | n + 1 =>
    match firstSuccess f n with
    | some k => some k
    | none => if f n then some n else none

/-- Insert the batches in order starting at batch index i: a batch whose
retry loop succeeds appends its rows and adds their count, a batch whose
attempts are exhausted is skipped. -/
def insertBatches (chOracle : Nat → Nat → Bool) (retry_attempts : Nat)
    (ch : List Article) (i : Nat) :
    List (List Article) → List Article × Nat
  | [] => (ch, 0)
  | b :: t =>
    if (firstSuccess (chOracle i) retry_attempts).isSome then
      let r := insertBatches chOracle retry_attempts (ch ++ b) (i + 1) t
      (r.1, b.length + r.2)
    else
      insertBatches chOracle retry_attempts ch (i + 1) t

/-- The chunked dedup query inside save_articles_to_clickhouse (only when
dedup_by_url is true): the set of the batch's URLs already in the
table. -/
def chDedupQuery (ch : List Article) (urls : List String) : Finset String :=
  (chunksOf 1000 urls).foldl
    (fun acc chunk => acc ∪ (chUrlQuery ch chunk).toFinset) ∅

/-- save_articles_to_clickhouse: emptiness and conversion checks, required
columns, date coercion, optional chunked dedup against the table, then
batched inserts with retries.  tableAvail is the outcome of
check_table_availability.  Returns the new table contents and the number
of rows inserted. -/
def save_articles_to_clickhouse (p : String → Int)
    (chOracle : Nat → Nat → Bool) (tableAvail : Bool) (ch : List Article)
    (input : ArticlesIn) (dedup_by_url : Bool)
    (batch_size retry_attempts : Nat) : List Article × Nat :=
  if input.isEmptyIn then (ch, 0)
  else
    match input.toDf with
    | none => (ch, 0)
    | some df =>
      if hasRequiredCols df then
        let df2 := setDateCol p df
        if tableAvail then
          let articles_dict := df2.rows
          let new_articles :=
            if dedup_by_url then
              let urls_to_check :=
                (articles_dict.filter (fun a => a.url ≠ "")).map (fun a => a.url)
              let urls_in_db := chDedupQuery ch urls_to_check
              articles_dict.filter (fun a => a.url ∉ urls_in_db)
            else articles_dict
          let batches := chunksOf batch_size (new_articles.map (cleanArticle p))
          insertBatches chOracle retry_attempts ch 0 batches
        else (ch, 0)
      else (ch, 0)

/-! ### save_articles_to_all_dbs (db_utils.py)

Converts the input, checks URLs across both stores when asked, filters
the batch, then writes to MongoDB (via save_articles_to_db on the record
list, its exception caught here) and to ClickHouse (dedup_by_url is the
negation of check_across_dbs). -/

/-- The summary returned by save_articles_to_all_dbs. -/
structure SaveCounts where
  mongodb : Nat
  clickhouse : Nat
  total : Nat
deriving DecidableEq, Repr

/-- save_articles_to_all_dbs over both stores.  chOracle and mOracle are
the network outcomes of the ClickHouse batch inserts and the MongoDB
bulk write; tableAvail is the ClickHouse table availability probe. -/
def save_articles_to_all_dbs (p : String → Int) (env : Env)
    (mOracle : Nat → Bool) (chOracle : Nat → Nat → Bool) (tableAvail : Bool)
    (dbs : DBs) (input : ArticlesIn)
    (use_mongodb use_clickhouse check_across_dbs : Bool) :
    DBs × SaveCounts :=
  match input.toDf with
  | none => (dbs, ⟨0, 0, 0⟩)
  | some df0 =>
    if df0.isEmpty then (dbs, ⟨0, 0, 0⟩)
    else
      let df :=
        if check_across_dbs && df0.cols.contains "url" then
          let urls_to_check := df0.rows.map (fun a => a.url)
          let existing_urls :=
            check_urls_exist env dbs urls_to_check use_mongodb use_clickhouse
          { df0 with rows := df0.rows.filter (fun a => a.url ∉ existing_urls) }
        else df0
      if check_across_dbs && df0.cols.contains "url" && df.rows.isEmpty then
        (dbs, ⟨0, 0, 0⟩)
      else
        let mongoStep : List Article × Nat :=
          if use_mongodb && !df.rows.isEmpty then
            match (save_articles_to_db_exc p mOracle dbs.mongo
                (.listIn df.cols df.rows true)).1 with
            | .ok r => r
            | .error _ => (dbs.mongo, 0)
          else (dbs.mongo, 0)
        let chStep : List Article × Nat :=
          if use_clickhouse && env.chImport && env.chEnv && !df.isEmpty then
            save_articles_to_clickhouse p chOracle tableAvail dbs.ch
              (.dfIn df) (!check_across_dbs) 1000 3
          else (dbs.ch, 0)
        (⟨mongoStep.1, chStep.1⟩,
         ⟨mongoStep.2, chStep.2, mongoStep.2 + chStep.2⟩)

/-! ### Substring matching (pandas str.contains with a literal, and the
MongoDB regex with re.escape, which is literal substring search) -/

/-- needle is a prefix of hay. -/
def prefixMatch : List Char → List Char → Bool
  | [], _ => true
  | _ :: _, [] => false
  | a :: as, b :: bs => a = b && prefixMatch as bs

/-- needle occurs somewhere in hay. -/
def containsSub (needle : List Char) : List Char → Bool
  | [] => prefixMatch needle []
  | c :: t => prefixMatch needle (c :: t) || containsSub needle t

/-- Case-sensitive substring test on strings. -/
def strContains (hay needle : String) : Bool :=
  containsSub needle.toList hay.toList

/-- Case-insensitive substring test on strings (the regex i option). -/
def ciContains (hay needle : String) : Bool :=
  containsSub (needle.toList.map Char.toLower) (hay.toList.map Char.toLower)

/-! ### Ordering the raw date column

sort_values orders the date cells; we order DVal by mapping it into the
lexicographic sum of strings and integers.  In the scrapers all raw dates
are ISO strings, for which string order is chronological order. -/

/-- Order key of a date cell. -/
def dkey : DVal → String ⊕ₗ Int
  | .str s => toLex (Sum.inl s)
  | .dt t => toLex (Sum.inr t)

/-- Row order: date ascending. -/
def dateAsc (a b : Article) : Prop := dkey a.date ≤ dkey b.date

/-- Row order: date descending. -/
def dateDesc (a b : Article) : Prop := dkey b.date ≤ dkey a.date

instance : DecidableRel dateAsc := fun a b =>
  inferInstanceAs (Decidable (dkey a.date ≤ dkey b.date))

instance : DecidableRel dateDesc := fun a b =>
  inferInstanceAs (Decidable (dkey b.date ≤ dkey a.date))

instance : IsTotal Article dateAsc := ⟨fun a b => le_total _ _⟩

instance : IsTotal Article dateDesc := ⟨fun a b => le_total _ _⟩

instance : IsTrans Article dateAsc :=
  ⟨fun _ _ _ h1 h2 => le_trans h1 h2⟩

instance : IsTrans Article dateDesc :=
  ⟨fun _ _ _ h1 h2 => le_trans h2 h1⟩

/-! ### process_articles (DuckDuckGoApiNews.py) -/

/-- The columns of a flattened scraper result. -/
def schemaCols : List String :=
  ["url", "title", "body", "date", "source", "searchKey", "image"]

/-- drop_duplicates with keep=first for an arbitrary key, with explicit
fuel for structural recursion: keep the first row of each key class, in
order. -/
def dedupGo {κ : Type} [DecidableEq κ] (k : Article → κ) :
    Nat → List Article → List Article
  | 0, _ => []
  | _, [] => []
  | fuel + 1, x :: t => x :: dedupGo k fuel (t.filter (fun y => k y ≠ k x))

/-- drop_duplicates with keep=first for an arbitrary key. -/
def dedupByKey {κ : Type} [DecidableEq κ] (k : Article → κ)
    (l : List Article) : List Article :=
  dedupGo k l.length l

/-- The key of the first drop_duplicates call: every column except
searchKey and image. -/
def rowKey (a : Article) : String × String × String × DVal × String :=
  (a.url, a.title, a.body, a.date, a.source)

/-- The Bloomberg connector text filtered out of article bodies. -/
def bloombergText : String :=
  "Connecting decision makers to a dynamic network of information"

/-- The body filter of process_articles (str.contains with na=False). -/
def hasBloomberg (body : String) : Bool :=
  strContains body bloombergText

/-- process_articles: None on empty input; otherwise sort by date
descending, drop full-row duplicates, drop duplicate URLs keeping the
first, sort by date ascending, remove Bloomberg connector rows, coerce
dates to datetime. -/
def process_articles (p : String → Int) (articles : List Article) :
    Option DataFrame :=
  if articles.isEmpty then none
  else
    let results_df : DataFrame := ⟨schemaCols, articles⟩
    if results_df.isEmpty then none
    else
      let sorted := List.insertionSort dateDesc results_df.rows
      let d1 := dedupByKey rowKey sorted
      let d2 := dedupByKey (fun a => a.url) d1
      let asc := List.insertionSort dateAsc d2
      let filtered := asc.filter (fun a => !hasBloomberg a.body)
      some ⟨schemaCols, filtered.map (setDate p)⟩

/-! ### search_news (main.py)

A document matches when its date is a datetime at least the cutoff (a
MongoDB gte against a datetime only matches datetime values), the
regex-escaped query occurs case-insensitively in title or body, and,
when a non-empty sources list is given, its source is listed.  The
second component counts the database queries issued. -/

/-- The match predicate of the MongoDB find query. -/
def searchMatches (cutoff : Int) (query : String) (sources : List String)
    (a : Article) : Bool :=
  (match a.date with
   | .dt t => decide (cutoff ≤ t)
   | .str _ => false)
  && (ciContains a.title query || ciContains a.body query)
  && (sources.isEmpty || sources.contains a.source)

/-- search_news: empty query short-circuits with no query issued;
otherwise one find, sorted date descending, limited. -/
def search_news (coll : List Article) (now : Int) (query : String)
    (days : Int) (sources : List String) (limit : Nat) :
    List Article × Nat :=
  if query = "" then ([], 0)
  else
    let cutoff := now - days * 86400
    let matched := coll.filter (searchMatches cutoff query sources)
    ((List.insertionSort dateDesc matched).take limit, 1)

/-! ### Tor proxy configuration (configTorProxies.py and proxy_utils.py)

The filesystem is a parameter: for configTorProxies, fs maps a searched
path to none (the path does not exist) or to the contents of the torrc
files found under it in os.walk order; for proxy_utils, fs2 maps a file
path to its contents when it exists. -/

/-- One proxy configuration entry. -/
structure Proxy where
  http : String
  https : String
deriving DecidableEq, Repr

/-- Build the socks5 proxy entry for a port. -/
def mkProxy (port : String) : Proxy :=
  ⟨"socks5://127.0.0.1:" ++ port, "socks5://127.0.0.1:" ++ port⟩

/-- The hardcoded fallback list of configTorProxies.py. -/
def DEFAULT_PROXIES : List Proxy :=
  [mkProxy "9050", mkProxy "9060", mkProxy "9070", mkProxy "9080",
   mkProxy "9090"]

/-- The searched torrc directories on non-Darwin systems. -/
def TOR_PATHS : List String :=
  ["/etc/tor", "/usr/local/etc/tor", "/etc", "/usr/local/etc",
   "/opt/tor/etc", "/var/lib/tor"]

/-- Split a character list at every separator accepted by p, keeping
empty fields (the helper behind Python str.split with a separator). -/
def splitCharsBy (p : Char → Bool) : List Char → List (List Char)
  | [] => [[]]
  | c :: t =>
    match splitCharsBy p t with
    | [] => [[]]
    | h :: r => if p c then [] :: h :: r else (c :: h) :: r

/-- Python content.split of a newline: the lines of a file, empty lines
kept. -/
def pyLines (s : String) : List String :=
  (splitCharsBy (fun c => c = '\n') s.data).map (fun w => ⟨w⟩)

/-- Python str.split with no argument: split on whitespace runs, no empty
fields. -/
def pySplitWs (s : String) : List String :=
  ((splitCharsBy (fun c => c.isWhitespace) s.data).filter
    (fun w => w ≠ [])).map (fun w => ⟨w⟩)

/-- Python str.strip: drop leading and trailing whitespace. -/
def pyStrip (s : String) : String :=
  ⟨((s.data.dropWhile (fun c => c.isWhitespace)).reverse.dropWhile
      (fun c => c.isWhitespace)).reverse⟩

/-- Python str.startswith. -/
def pyStartsWith (s pre : String) : Bool :=
  prefixMatch pre.data s.data

/-- Python int() on a digit string (ValueError is None); ports in torrc
files are plain digit runs. -/
def charsToNat? (l : List Char) : Option Nat :=
  if l ≠ [] && l.all (fun c => c.isDigit) then
    some (l.foldl (fun n c => n * 10 + (c.toNat - 48)) 0)
  else none

/-- Parse one torrc line as configTorProxies does: strip, skip blank and
comment lines, take lines starting with SocksPort, read the second
whitespace field (an IndexError skips the line). -/
def parseSocksLine (line : String) : Option String :=
  let l := pyStrip line
  if l ≠ "" && !(pyStartsWith l "#") && pyStartsWith l "SocksPort" then
    match pySplitWs l with
    | _ :: port :: _ => some port
    | _ => none
  else none

/-- All proxies parsed from one torrc file content. -/
def parseTorrc (content : String) : List Proxy :=
  (pyLines content).filterMap (fun line => (parseSocksLine line).map mkProxy)

/-- get_torrc_proxies: walk the paths in order; for each existing path
with at least one torrc, read only the first torrc found and return its
parsed proxies when non-empty, otherwise move to the next path;
DEFAULT_PROXIES when every path is exhausted. -/
def get_torrc_proxies (fs : String → Option (List String)) :
    List String → List Proxy
  | [] => DEFAULT_PROXIES
  | path :: rest =>
    match fs path with
    | none => get_torrc_proxies fs rest
    | some [] => get_torrc_proxies fs rest
    | some (c :: _) =>
      let proxy_list := parseTorrc c
      if proxy_list.isEmpty then get_torrc_proxies fs rest else proxy_list

/-- The module-level listOfTorProxies: get_torrc_proxies on the
platform-dependent paths, re-defaulted when empty. -/
def listOfTorProxies (fs : String → Option (List String)) (darwin : Bool) :
    List Proxy :=
  let l := get_torrc_proxies fs (if darwin then ["/usr/local/etc/tor"] else TOR_PATHS)
  if l.isEmpty then DEFAULT_PROXIES else l

/-- The default Tor ports of proxy_utils.py. -/
def DEFAULT_TOR_PORTS : List Nat := [9050, 9060, 9070, 9080, 9090]

/-- Parse one torrc line as proxy_utils does: skip blank lines and lines
starting (unstripped) with a hash, take lines containing SocksPort, read
the second whitespace field as an integer (IndexError or ValueError skips
the line). -/
def parseSocksLine2 (line : String) : Option Nat :=
  if pyStrip line ≠ "" && !(pyStartsWith line "#")
      && strContains line "SocksPort" then
    match pySplitWs line with
    | _ :: port :: _ => charsToNat? port.data
    | _ => none
  else none

/-- The first existing file among the candidate paths. -/
def firstExisting (fs2 : String → Option String) : List String → Option String
  | [] => none
  | pth :: rest =>
    match fs2 pth with
    | some c => some c
    | none => firstExisting fs2 rest

/-- get_tor_proxies (proxy_utils.py): start from the default ports,
append the new ports of the first torrc file that exists, and build the
proxy entries. -/
def get_tor_proxies (fs2 : String → Option String) (paths : List String) :
    List Proxy :=
  let extra :=
    match firstExisting fs2 paths with
    | none => []
    | some c => (pyLines c).filterMap parseSocksLine2
  let ports := extra.foldl
    (fun acc pt => if acc.contains pt then acc else acc ++ [pt])
    DEFAULT_TOR_PORTS
  ports.map (fun pt => mkProxy (toString pt))

/-- get_random_proxy: random.choice on the module list, with the
hardcoded 9050 fallback when the list is empty; k models the random
index. -/
def get_random_proxy (proxies : List Proxy) (k : Nat) : Proxy :=
  if proxies.isEmpty then mkProxy "9050"
  else proxies.getD (k % proxies.length) (mkProxy "9050")

/-! ### A small object heap for the DataFrame aliasing behaviour

The pure definitions above take DataFrame values; to reason about the
caller's object being left intact we also embed the three save functions
over an explicit heap of DataFrame objects.  articles.copy() allocates a
fresh object; a column assignment mutates the object it is applied to;
boolean-mask filtering allocates a fresh object. -/

/-- A heap of DataFrame objects, addressed by allocation index. -/
structure Heap where
  dfs : List DataFrame
deriving Repr

/-- Read the object at a reference (out-of-range reads give the empty
frame; the theorems only use valid references). -/
def Heap.get (h : Heap) (r : Nat) : DataFrame :=
  h.dfs.getD r ⟨[], []⟩

/-- Overwrite the object at a reference. -/
def Heap.set (h : Heap) (r : Nat) (d : DataFrame) : Heap :=
  ⟨h.dfs.set r d⟩

/-- Allocate a fresh object, returning the new heap and its reference. -/
def Heap.alloc (h : Heap) (d : DataFrame) : Heap × Nat :=
  (⟨h.dfs ++ [d]⟩, h.dfs.length)

/-- The text-column normalisation of save_articles_to_clickhouse
(fillna and astype on the text columns, str-or-None on the optional
columns).  All model fields are already total strings or options, so the
normalised frame has the same contents; the heap embedding still records
it as a write to the copy. -/
def normalizeTextCols (d : DataFrame) : DataFrame := d

/-- save_articles_to_db on a DataFrame object: emptiness check on the
caller's object, copy, required-column check, date coercion on the copy,
then the bulk write (successful here; the heap claim quantifies over the
outcome separately). -/
def save_articles_to_db_heap (p : String → Int) (mOracle : Nat → Bool)
    (coll : List Article) (h : Heap) (r : Nat) :
    Heap × (Except Unit (List Article × Nat)) :=
  let d := h.get r
  if d.isEmpty then (h, .ok (coll, 0))
  else
    let a1 := h.alloc d
    let h1 := a1.1
    let r1 := a1.2
    if hasRequiredCols (h1.get r1) then
      let h2 := h1.set r1 (setDateCol p (h1.get r1))
      let ops := (h2.get r1).rows
      if ops.length > 0 then
        if mOracle 0 then
          let w := applyBulkOps coll ops
          (h2, .ok (w.1, w.2.1 + w.2.2))
        else (h2, .error ())
      else (h2, .ok (coll, 0))
    else (h1, .ok (coll, 0))

/-- save_articles_to_clickhouse on a DataFrame object: emptiness check,
copy, required-column check, date coercion and text normalisation on the
copy, then the pure table-availability check, dedup query and batched
inserts. -/
def save_articles_to_clickhouse_heap (p : String → Int)
    (chOracle : Nat → Nat → Bool) (tableAvail : Bool) (ch : List Article)
    (h : Heap) (r : Nat) (dedup_by_url : Bool)
    (batch_size retry_attempts : Nat) : Heap × (List Article × Nat) :=
  let d := h.get r
  if d.isEmpty then (h, (ch, 0))
  else
    let a1 := h.alloc d
    let h1 := a1.1
    let r1 := a1.2
    if hasRequiredCols (h1.get r1) then
      let h2 := h1.set r1 (setDateCol p (h1.get r1))
      let h3 := h2.set r1 (normalizeTextCols (h2.get r1))
      let df2 := h3.get r1
      if tableAvail then
        let articles_dict := df2.rows
        let new_articles :=
          if dedup_by_url then
            let urls_to_check :=
              (articles_dict.filter (fun a => a.url ≠ "")).map (fun a => a.url)
            let urls_in_db := chDedupQuery ch urls_to_check
            articles_dict.filter (fun a => a.url ∉ urls_in_db)
          else articles_dict
        let batches := chunksOf batch_size (new_articles.map (cleanArticle p))
        (h3, insertBatches chOracle retry_attempts ch 0 batches)
      else (h3, (ch, 0))
    else (h1, (ch, 0))

/-- save_articles_to_all_dbs on a DataFrame object: copy the caller's
frame, run the cross-database check, allocate the filtered frame, write
to MongoDB through the record list (no heap access) and to ClickHouse
through the heap embedding on the filtered object. -/
def save_articles_to_all_dbs_heap (p : String → Int) (env : Env)
    (mOracle : Nat → Bool) (chOracle : Nat → Nat → Bool) (tableAvail : Bool)
    (dbs : DBs) (h : Heap) (r : Nat)
    (use_mongodb use_clickhouse check_across_dbs : Bool) :
    Heap × (DBs × SaveCounts) :=
  let d := h.get r
  let a1 := h.alloc d
  let h1 := a1.1
  let r1 := a1.2
  if (h1.get r1).isEmpty then (h1, (dbs, ⟨0, 0, 0⟩))
  else
    let df0 := h1.get r1
    let a2 :=
      if check_across_dbs && df0.cols.contains "url" then
        let urls_to_check := df0.rows.map (fun a => a.url)
        let existing_urls :=
          check_urls_exist env dbs urls_to_check use_mongodb use_clickhouse
        h1.alloc
          { df0 with rows := df0.rows.filter (fun a => a.url ∉ existing_urls) }
      else (h1, r1)
    let h2 := a2.1
    let r2 := a2.2
    let df := h2.get r2
    if check_across_dbs && df0.cols.contains "url" && df.rows.isEmpty then
      (h2, (dbs, ⟨0, 0, 0⟩))
    else
      let mongoStep : List Article × Nat :=
        if use_mongodb && !df.rows.isEmpty then
          match (save_articles_to_db_exc p mOracle dbs.mongo
              (.listIn df.cols df.rows true)).1 with
          | .ok w => w
          | .error _ => (dbs.mongo, 0)
        else (dbs.mongo, 0)
      let chStep : Heap × (List Article × Nat) :=
        if use_clickhouse && env.chImport && env.chEnv && !df.isEmpty then
          save_articles_to_clickhouse_heap p chOracle tableAvail dbs.ch
            h2 r2 (!check_across_dbs) 1000 3
        else (h2, (dbs.ch, 0))
      (chStep.1,
       (⟨mongoStep.1, chStep.2.1⟩,
        ⟨mongoStep.2, chStep.2.2, mongoStep.2 + chStep.2.2⟩))

/-! ## Specification propositions and sample data for the claims -/

/-- A trivial date parser used for concrete instantiations. -/
def p0 : String → Int := fun _ => 0

/-- Sample article. -/
def artA : Article :=
  ⟨"http://a", "tA", "bA", .str "2024-01-01", "srcA", none, none⟩

/-- Sample article with a different url. -/
def artB : Article :=
  ⟨"http://b", "tB", "bB", .str "2024-01-02", "srcB", none, none⟩

/-- Sample full-schema DataFrame. -/
def dfW : DataFrame := ⟨schemaCols, [artA, artB]⟩

/-- Sample DataFrame missing the required title, body and date columns. -/
def dfBad : DataFrame := ⟨["url"], [artA]⟩

/-- The last-write-wins upsert behaviour of save_articles_to_db on a
DataFrame batch: the store becomes the fold of one upsert per batch
article keyed on its url with all its (date-coerced) fields; a url
already stored gains no second document; the at-most-one-document-per-url
invariant is kept, also after saving the same batch twice; and the
document left at a url is the last batch operation with that url. -/
def upsertLwwSpec (p : String → Int) (coll : List Article) (d : DataFrame) :
    Prop :=
  List.Forall₂ (fun a op => op = setDate p a ∧ op.url = a.url)
    d.rows (setDateCol p d).rows
  ∧ (save_articles_to_db p coll (.dfIn d)).1 =
      (applyBulkOps coll (setDateCol p d).rows).1
  ∧ (∀ u, 1 ≤ countUrl coll u →
      countUrl (save_articles_to_db p coll (.dfIn d)).1 u = countUrl coll u)
  ∧ (∀ u, countUrl (save_articles_to_db p coll (.dfIn d)).1 u ≤ 1)
  ∧ (∀ u a, ((setDateCol p d).rows.filter (fun x => x.url = u)).getLast? = some a →
      (save_articles_to_db p coll (.dfIn d)).1.filter (fun x => x.url = u) = [a])
  ∧ (∀ u, countUrl
      (save_articles_to_db p (save_articles_to_db p coll (.dfIn d)).1 (.dfIn d)).1 u ≤ 1)

/-- ensure_date_format: pointwise, a document with a string date gets
that one field parsed and nothing else changed, any other document is
untouched, and the returned count is the number of string-dated
documents. -/
def ensureDateSpec (p : String → Int) (coll : List Article) : Prop :=
  List.Forall₂ (fun a b =>
      b.url = a.url ∧ b.title = a.title ∧ b.body = a.body ∧
      b.source = a.source ∧ b.searchKey = a.searchKey ∧ b.image = a.image ∧
      (a.date.isStr = false → b = a) ∧
      (∀ s, a.date = .str s → b.date = .dt (p s)))
    coll (ensure_date_format p coll).1
  ∧ (ensure_date_format p coll).2 = (coll.filter (fun a => a.date.isStr)).length

/-- The early error paths of save_articles_to_db end with a zero result,
no exception and no bulk_write call issued, for any network outcome. -/
def saveDbErrorSpec (p : String → Int) (mOracle : Nat → Bool)
    (coll : List Article) (input : ArticlesIn) : Prop :=
  save_articles_to_db_exc p mOracle coll input = (.ok (coll, 0), 0)

/-- The keyword search contract: at most limit results, every result a
stored document within the date window containing the query
case-insensitively in title or body and, when a sources list is given,
from a listed source; ordered newest first; at most one query issued,
none for the empty query. -/
def searchSpec (coll : List Article) (now : Int) (query : String)
    (days : Int) (sources : List String) (limit : Nat) : Prop :=
  (search_news coll now query days sources limit).1.length ≤ limit
  ∧ (∀ a ∈ (search_news coll now query days sources limit).1,
      a ∈ coll
      ∧ (∃ t, a.date = DVal.dt t ∧ now - days * 86400 ≤ t)
      ∧ (ciContains a.title query = true ∨ ciContains a.body query = true)
      ∧ (sources ≠ [] → a.source ∈ sources))
  ∧ List.Sorted dateDesc (search_news coll now query days sources limit).1
  ∧ (search_news coll now query days sources limit).2 ≤ 1
  ∧ (query = "" → search_news coll now query days sources limit = ([], 0))

/-- The contract of process_articles on a non-empty input: the output
frame has the schema columns and rows q mapped through the date
coercion, where q has at most one row per url, all rows drawn from the
input, each kept row carrying a maximal date among the input rows with
its url, sorted by date ascending, free of the Bloomberg connector text,
and empty when every input row carries the connector text. -/
def processSpec (p : String → Int) (articles : List Article) : Prop :=
  ∃ q : List Article,
    process_articles p articles = some ⟨schemaCols, q.map (setDate p)⟩
    ∧ (∀ u, countUrl q u ≤ 1)
    ∧ (∀ r ∈ q, r ∈ articles)
    ∧ (∀ r ∈ q, ∀ b ∈ articles, b.url = r.url → dkey b.date ≤ dkey r.date)
    ∧ List.Sorted dateAsc q
    ∧ (∀ r ∈ q, hasBloomberg r.body = false)
    ∧ ((∀ a ∈ articles, hasBloomberg a.body = true) → q = [])

/-- A torrc file under the first searched path with no SocksPort
line. -/
def torrcNoPort : String := "Log notice stdout"

/-- A second torrc file under the same path carrying a SocksPort
line. -/
def torrcWithPort : String := "SocksPort 9051"

/-- A filesystem in which the first searched directory holds two torrc
files, found in this order by os.walk: one without SocksPort lines and
one with, and no other searched path exists. -/
def fsX : String → Option (List String) := fun pth =>
  if pth = "/etc/tor" then some [torrcNoPort, torrcWithPort] else none

/-- The parse of the first torrc found under each path in order, when it
yields at least one proxy (what get_torrc_proxies actually consults). -/
def firstTorrcParse (fs : String → Option (List String))
    (paths : List String) : Option (List Proxy) :=
  paths.findSome? (fun pth =>
    (fs pth).bind (fun cs =>
      cs.head?.bind (fun c =>
        let pl := parseTorrc c
        if pl.isEmpty then none else some pl)))

/-- The amended proxy-configuration contract: get_torrc_proxies returns
the parse of the first torrc that is both first-found under its path and
yields proxies, with DEFAULT_PROXIES as the fallback; the module-level
lists are never empty; and get_random_proxy always returns an entry of
the module list, every entry being a socks5 http/https pair. -/
def torrcSpec (fs : String → Option (List String)) (paths : List String)
    (fs2 : String → Option String) (paths2 : List String) (darwin : Bool)
    (kk : Nat) : Prop :=
  get_torrc_proxies fs paths = (firstTorrcParse fs paths).getD DEFAULT_PROXIES
  ∧ get_torrc_proxies fs paths ≠ []
  ∧ listOfTorProxies fs darwin ≠ []
  ∧ get_tor_proxies fs2 paths2 ≠ []
  ∧ get_random_proxy (get_tor_proxies fs2 paths2) kk ∈ get_tor_proxies fs2 paths2
  ∧ (∀ x ∈ get_tor_proxies fs2 paths2, ∃ s, x = mkProxy s)

/-- The caller-frame contract of the save pipeline: each of the three
save functions, run on the DataFrame object at reference r, leaves the
caller's object untouched, whatever the network outcome. -/
def frameSpec (p : String → Int) (env : Env) (mOracle : Nat → Bool)
    (chOracle : Nat → Nat → Bool) (tableAvail : Bool)
    (coll ch : List Article) (dbs : DBs) (h : Heap) (r : Nat)
    (dedup : Bool) (bs ra : Nat) (um uc cad : Bool) : Prop :=
  (save_articles_to_db_heap p mOracle coll h r).1.get r = h.get r
  ∧ (save_articles_to_clickhouse_heap p chOracle tableAvail ch h r
      dedup bs ra).1.get r = h.get r
  ∧ (save_articles_to_all_dbs_heap p env mOracle chOracle tableAvail dbs
      h r um uc cad).1.get r = h.get r

/-- Whether the batch at index i eventually succeeds within the retry
budget (some attempt below retry_attempts is accepted by the oracle). -/
def batchSucceeds (chOracle : Nat → Nat → Bool) (retry_attempts i : Nat) :
    Bool :=
  (List.range retry_attempts).any (fun a => chOracle i a)

/-- The concatenated rows of the batches whose insert succeeds, starting
at batch index i. -/
def succeededRows (chOracle : Nat → Nat → Bool) (retry_attempts : Nat) :
    Nat → List (List Article) → List Article
  | _, [] => []
  | i, b :: t =>
    (if batchSucceeds chOracle retry_attempts i then b else [])
      ++ succeededRows chOracle retry_attempts (i + 1) t

/-- The amended retry contract: save_articles_to_clickhouse splits the
(possibly deduplicated) new articles into batches of batch_size, retries
each batch up to retry_attempts times, keeps going after a batch is
given up, returns the count of the rows of the succeeded batches and
appends exactly those rows; the MongoDB bulk write of save_articles_to_db
is issued at most once, with no retry, and its failure propagates as an
exception. -/
def retrySpec (p : String → Int) (chOracle : Nat → Nat → Bool)
    (mOracle : Nat → Bool) (ch coll : List Article) (d : DataFrame)
    (dedup : Bool) (batch_size retry : Nat) : Prop :=
  let articles_dict := (setDateCol p d).rows
  let rows := (if dedup then
      articles_dict.filter (fun a => a.url ∉ chDedupQuery ch
        ((articles_dict.filter (fun a => a.url ≠ "")).map (fun a => a.url)))
    else articles_dict).map (cleanArticle p)
  let batches := chunksOf batch_size rows
  (hasRequiredCols d = true → d.isEmpty = false →
    save_articles_to_clickhouse p chOracle true ch (.dfIn d) dedup
        batch_size retry =
      (ch ++ succeededRows chOracle retry 0 batches,
       (succeededRows chOracle retry 0 batches).length))
  ∧ (1 ≤ batch_size →
      batches.flatten = rows ∧ ∀ b ∈ batches, b.length ≤ batch_size)
  ∧ (∀ i, batchSucceeds chOracle retry i = true ↔
      ∃ a, a < retry ∧ chOracle i a = true)
  ∧ (save_articles_to_db_exc p mOracle coll (.dfIn d)).2 ≤ 1
  ∧ (hasRequiredCols d = true → d.isEmpty = false → mOracle 0 = false →
      save_articles_to_db_exc p mOracle coll (.dfIn d) = (.error (), 1))

/-- Sample database state: one article already in MongoDB, none in
ClickHouse. -/
def dbs0 : DBs := ⟨[artA], []⟩

/-- The cross-database deduplication contract of save_articles_to_all_dbs
with check_across_dbs: check_urls_exist is exactly the union of the
MongoDB read query and the chunked ClickHouse read query, both
restricted to the batch's own urls; the pipeline writes exactly the
articles whose url is not in that set; and the stores are untouched at
every url outside the written batch, in particular at every url the
check reported as existing. -/
def crossDedupSpec (p : String → Int) (dbs : DBs) (d : DataFrame) : Prop :=
  let urls := d.rows.map (fun a => a.url)
  let E := check_urls_exist ⟨true, true⟩ dbs urls true true
  let kept := d.rows.filter (fun a => a.url ∉ E)
  let res := save_articles_to_all_dbs p ⟨true, true⟩ (fun _ => true)
    (fun _ _ => true) true dbs (.dfIn d) true true true
  E = (mongoUrlQuery dbs.mongo urls).toFinset
      ∪ (chUrlQuery dbs.ch urls).toFinset
  ∧ (∀ u, u ∈ E ↔ ((u ∈ dbs.mongo.map (fun a => a.url)
      ∨ u ∈ dbs.ch.map (fun a => a.url)) ∧ u ∈ urls))
  ∧ res.1.mongo = (if kept.isEmpty then dbs.mongo
      else (applyBulkOps dbs.mongo (kept.map (setDate p))).1)
  ∧ res.1.ch = dbs.ch ++ kept.map (setDate p)
  ∧ (∀ u, u ∉ kept.map (fun a => a.url) →
      countUrl res.1.mongo u = countUrl dbs.mongo u
      ∧ countUrl res.1.ch u = countUrl dbs.ch u)
  ∧ (∀ u, u ∈ E →
      countUrl res.1.mongo u = countUrl dbs.mongo u
      ∧ countUrl res.1.ch u = countUrl dbs.ch u)

/-! ## Lemmas -/

theorem forall2_map_self {α β : Type} {R : α → β → Prop} (f : α → β)
    (h : ∀ a, R a (f a)) : ∀ l : List α, List.Forall₂ R l (l.map f)
  | [] => .nil
  | x :: t => .cons (h x) (forall2_map_self f h t)

theorem countUrl_nil (u : String) : countUrl [] u = 0 := rfl

theorem countUrl_cons (x : Article) (t : List Article) (u : String) :
    countUrl (x :: t) u = (if x.url = u then 1 else 0) + countUrl t u := by
  simp only [countUrl, List.filter_cons]
  split <;> simp_all <;> omega

theorem countUrl_append (l1 l2 : List Article) (u : String) :
    countUrl (l1 ++ l2) u = countUrl l1 u + countUrl l2 u := by
  induction l1 with
  | nil => simp [countUrl]
  | cons x t ih => simp [countUrl_cons, ih]; omega

/-- Effect of one upsert on a url count: the written url reaches count
max 1 count, every other url is untouched. -/
theorem countUrl_mongoUpsert (coll : List Article) (a : Article) (u : String) :
    countUrl (mongoUpsert coll a).1 u =
      if u = a.url then max 1 (countUrl coll u) else countUrl coll u := by
  induction coll with
  | nil =>
    show countUrl [a] u = _
    rw [countUrl_cons, countUrl_nil]
    by_cases h : u = a.url
    · subst h; simp
    · have h1 : ¬(a.url = u) := fun hc => h hc.symm
      simp [h1, h]
  | cons x t ih =>
    by_cases hx : x.url = a.url
    · have he : (mongoUpsert (x :: t) a).1 = a :: t := by
        simp [mongoUpsert, hx]
      rw [he, countUrl_cons, countUrl_cons]
      by_cases h : u = a.url
      · subst h
        simp [hx]
      · have h1 : ¬(a.url = u) := fun hc => h hc.symm
        have h2 : ¬(x.url = u) := fun hc => h1 (hx.symm.trans hc)
        simp [h1, h2, h]
    · have he : (mongoUpsert (x :: t) a).1 = x :: (mongoUpsert t a).1 := by
        simp [mongoUpsert, hx]
      rw [he, countUrl_cons, countUrl_cons, ih]
      by_cases h : u = a.url
      · have h2 : ¬(x.url = u) := fun hc => hx (h ▸ hc)
        simp only [if_pos h, h2, if_neg, if_false]
        omega
      · simp [h]

/-- Effect of a bulk write on a url count. -/
theorem countUrl_applyBulkOps (ops : List Article) (coll : List Article)
    (u : String) :
    countUrl (applyBulkOps coll ops).1 u =
      if u ∈ ops.map (fun a => a.url) then max 1 (countUrl coll u)
      else countUrl coll u := by
  induction ops generalizing coll with
  | nil => simp [applyBulkOps]
  | cons a t ih =>
    show countUrl (applyBulkOps (mongoUpsert coll a).1 t).1 u = _
    rw [ih, countUrl_mongoUpsert]
    simp only [List.map_cons, List.mem_cons]
    by_cases h1 : u ∈ t.map (fun a => a.url)
    · by_cases h2 : u = a.url <;> simp [h1, h2] <;> omega
    · by_cases h2 : u = a.url <;> simp [h1, h2]

/-- A bulk write keeps the at-most-one-document-per-url invariant. -/
theorem applyBulkOps_invariant (ops coll : List Article)
    (hinv : ∀ v, countUrl coll v ≤ 1) (u : String) :
    countUrl (applyBulkOps coll ops).1 u ≤ 1 := by
  rw [countUrl_applyBulkOps]
  split_ifs with h
  · exact max_le (le_refl 1) (hinv u)
  · exact hinv u

/-- An upsert of a different url leaves the url's documents untouched. -/
theorem filter_mongoUpsert_ne (coll : List Article) (a : Article) (u : String)
    (h : a.url ≠ u) :
    (mongoUpsert coll a).1.filter (fun x => x.url = u) =
      coll.filter (fun x => x.url = u) := by
  induction coll with
  | nil => simp [mongoUpsert, List.filter, h]
  | cons x t ih =>
    by_cases hx : x.url = a.url
    · have he : (mongoUpsert (x :: t) a).1 = a :: t := by
        simp [mongoUpsert, hx]
      have hxu : ¬(x.url = u) := fun hc => h (hx.symm.trans hc)
      rw [he]
      simp only [List.filter_cons]
      simp [h, hxu]
    · have he : (mongoUpsert (x :: t) a).1 = x :: (mongoUpsert t a).1 := by
        simp [mongoUpsert, hx]
      rw [he]
      simp only [List.filter_cons, ih]

/-- An upsert into a collection holding at most one document for the url
leaves exactly the new record at that url. -/
theorem filter_mongoUpsert_eq (coll : List Article) (a : Article)
    (hinv : countUrl coll a.url ≤ 1) :
    (mongoUpsert coll a).1.filter (fun x => x.url = a.url) = [a] := by
  induction coll with
  | nil => simp [mongoUpsert, List.filter]
  | cons x t ih =>
    by_cases hx : x.url = a.url
    · have he : (mongoUpsert (x :: t) a).1 = a :: t := by
        simp [mongoUpsert, hx]
      have ht : countUrl t a.url = 0 := by
        have hc := countUrl_cons x t a.url
        rw [if_pos hx] at hc
        omega
      have hnil : t.filter (fun x => decide (x.url = a.url)) = [] :=
        List.length_eq_zero.mp ht
      rw [he]
      simp only [List.filter_cons]
      simp [hnil]
    · have he : (mongoUpsert (x :: t) a).1 = x :: (mongoUpsert t a).1 := by
        simp [mongoUpsert, hx]
      have ht : countUrl t a.url ≤ 1 := by
        have hc := countUrl_cons x t a.url
        rw [if_neg hx] at hc
        omega
      rw [he]
      simp only [List.filter_cons]
      simp [hx, ih ht]

/-- Last write wins across a bulk write: the documents at url u after the
write are the last operation with that url, or the original documents
when no operation touches u. -/
theorem filter_applyBulkOps (ops : List Article) (coll : List Article)
    (u : String) (hinv : ∀ v, countUrl coll v ≤ 1) :
    (applyBulkOps coll ops).1.filter (fun x => x.url = u) =
      ((ops.filter (fun a => a.url = u)).getLast?).elim
        (coll.filter (fun x => x.url = u)) (fun a => [a]) := by
  induction ops generalizing coll with
  | nil => simp [applyBulkOps]
  | cons a t ih =>
    have hinv1 : ∀ v, countUrl (mongoUpsert coll a).1 v ≤ 1 := by
      intro v
      rw [countUrl_mongoUpsert]
      split_ifs with h
      · exact max_le (le_refl 1) (hinv v)
      · exact hinv v
    simp only [applyBulkOps]
    rw [ih _ hinv1]
    by_cases hau : a.url = u
    · have hbase : (mongoUpsert coll a).1.filter (fun x => x.url = u) = [a] := by
        rw [← hau]
        exact filter_mongoUpsert_eq coll a (hinv a.url)
      rw [hbase]
      simp only [List.filter_cons]
      rw [if_pos (by simp [hau])]
      cases hlast : (t.filter (fun a => a.url = u)).getLast? with
      | none =>
        have : t.filter (fun a => a.url = u) = [] := by
          cases hf : t.filter (fun a => a.url = u) with
          | nil => rfl
          | cons y ys => rw [hf] at hlast; simp [List.getLast?] at hlast
        simp only [this]
        simp [List.getLast?]
      | some b =>
        have hne : t.filter (fun a => decide (a.url = u)) ≠ [] := by
          intro hc; rw [hc] at hlast; simp at hlast
        obtain ⟨y, ys, hys⟩ := List.exists_cons_of_ne_nil hne
        have h1 : (a :: t.filter (fun a => decide (a.url = u))).getLast? = some b := by
          rw [hys, List.getLast?_cons_cons, ← hys, hlast]
        simp [h1]
    · have hbase : (mongoUpsert coll a).1.filter (fun x => x.url = u) =
          coll.filter (fun x => x.url = u) :=
        filter_mongoUpsert_ne coll a u hau
      rw [hbase]
      simp only [List.filter_cons]
      simp [hau]

/-- Unfolds save_articles_to_db on a non-empty DataFrame with the
required columns: the store becomes the bulk write fold. -/
theorem save_to_db_df_eq (p : String → Int) (coll : List Article)
    (d : DataFrame) (hreq : hasRequiredCols d = true)
    (hne : d.isEmpty = false) :
    save_articles_to_db p coll (.dfIn d) =
      ((applyBulkOps coll (setDateCol p d).rows).1,
       (applyBulkOps coll (setDateCol p d).rows).2.1 +
         (applyBulkOps coll (setDateCol p d).rows).2.2) := by
  have hrows : d.rows ≠ [] := by
    simp [DataFrame.isEmpty] at hne
    exact hne.1
  have hlen : 0 < (setDateCol p d).rows.length := by
    simp only [setDateCol, List.length_map]
    exact List.length_pos.mpr hrows
  have hEmptyIn : (ArticlesIn.dfIn d).isEmptyIn = false := hne
  unfold save_articles_to_db save_articles_to_db_exc saveDfToMongo
  simp only [hEmptyIn, Bool.false_eq_true, if_false, ArticlesIn.toDf, hreq,
    if_true, gt_iff_lt, hlen, Except.toOption]
  simp [hlen]

/-- C2: save_articles_to_db resolves conflicts by last-write-wins via
upsert: one upsert-by-filter operation keyed on the url with a set of
all fields per batch article; a stored url is replaced, not duplicated;
saving the same batch twice leaves at most one document per url. -/
theorem save_to_db_upsert_last_write_wins (p : String → Int)
    (coll : List Article) (d : DataFrame) (hreq : hasRequiredCols d = true)
    (hne : d.isEmpty = false) (hinv : ∀ u, countUrl coll u ≤ 1) :
    upsertLwwSpec p coll d := by
  have heq := save_to_db_df_eq p coll d hreq hne
  have hceq : (save_articles_to_db p coll (.dfIn d)).1 =
      (applyBulkOps coll (setDateCol p d).rows).1 := by rw [heq]
  refine ⟨?_, hceq, ?_, ?_, ?_, ?_⟩
  · have : (setDateCol p d).rows = d.rows.map (setDate p) := rfl
    rw [this]
    exact forall2_map_self _ (fun a => ⟨rfl, rfl⟩) d.rows
  · intro u hu
    rw [hceq, countUrl_applyBulkOps]
    split_ifs with h
    · omega
    · rfl
  · intro u
    rw [hceq]
    exact applyBulkOps_invariant _ coll hinv u
  · intro u a hlast
    rw [hceq, filter_applyBulkOps _ coll u hinv, hlast]
    rfl
  · intro u
    have hinv2 : ∀ v, countUrl (save_articles_to_db p coll (.dfIn d)).1 v ≤ 1 := by
      intro v
      rw [hceq]
      exact applyBulkOps_invariant _ coll hinv v
    have heq2 := save_to_db_df_eq p (save_articles_to_db p coll (.dfIn d)).1 d hreq hne
    rw [heq2]
    exact applyBulkOps_invariant _ _ hinv2 u

/-- Witness for C2 at a concrete batch and the empty store. -/
theorem save_to_db_upsert_lww_witness :
    hasRequiredCols dfW = true ∧ dfW.isEmpty = false ∧
    (∀ u, countUrl ([] : List Article) u ≤ 1) ∧
    upsertLwwSpec p0 [] dfW := by
  refine ⟨by decide, by decide, fun u => by simp [countUrl], ?_⟩
  exact save_to_db_upsert_last_write_wins p0 [] dfW (by decide) (by decide)
    (fun u => by simp [countUrl])

/-- C6: ensure_date_format converts exactly the string date fields and
returns the number of modified documents; everything else in the
collection is unchanged. -/
theorem ensure_date_format_frame (p : String → Int) (coll : List Article) :
    ensureDateSpec p coll := by
  constructor
  · have : (ensure_date_format p coll).1 = coll.map (fun a =>
        match a.date with
        | .str s => { a with date := .dt (p s) }
        | .dt _ => a) := rfl
    rw [this]
    refine forall2_map_self _ (fun a => ?_) coll
    cases hd : a.date with
    | str s =>
      refine ⟨rfl, rfl, rfl, rfl, rfl, rfl, ?_, ?_⟩
      · intro habs; simp [DVal.isStr] at habs
      · intro s2 hs2
        cases hs2
        rfl
    | dt t =>
      refine ⟨rfl, rfl, rfl, rfl, rfl, rfl, fun _ => rfl, ?_⟩
      intro s2 hs2
      cases hs2
  · rfl

/-- Witness for C6 at a concrete mixed collection. -/
theorem ensure_date_format_frame_witness :
    ensureDateSpec p0 [artA, { artB with date := .dt 5 }] :=
  ensure_date_format_frame p0 [artA, { artB with date := .dt 5 }]

/-- C8: every error path of save_articles_to_db that precedes the bulk
write (None or empty input, failed DataFrame conversion, missing
required column) returns 0 without issuing any write, leaving the store
unchanged. -/
theorem save_to_db_error_paths_no_write (p : String → Int)
    (mOracle : Nat → Bool) (coll : List Article) (input : ArticlesIn)
    (h : input.isEmptyIn = true ∨ input.toDf = none ∨
      (∀ d, input.toDf = some d → hasRequiredCols d = false)) :
    saveDbErrorSpec p mOracle coll input := by
  unfold saveDbErrorSpec save_articles_to_db_exc
  by_cases he : input.isEmptyIn = true
  · simp [he]
  · rcases h with h1 | h2 | h3
    · exact absurd h1 he
    · simp [he, h2]
    · simp only [he, Bool.false_eq_true, if_false]
      cases ht : input.toDf with
      | none => rfl
      | some d =>
        simp [saveDfToMongo, h3 d ht]

/-- Witness for C8: a DataFrame missing required columns, under a
failing network oracle, with a non-empty store shape. -/
theorem save_to_db_error_paths_witness :
    ((ArticlesIn.dfIn dfBad).isEmptyIn = true ∨
      (ArticlesIn.dfIn dfBad).toDf = none ∨
      (∀ d, (ArticlesIn.dfIn dfBad).toDf = some d → hasRequiredCols d = false))
    ∧ saveDbErrorSpec p0 (fun _ => false) [artB] (.dfIn dfBad) := by
  have h : (∀ d, (ArticlesIn.dfIn dfBad).toDf = some d →
      hasRequiredCols d = false) := by
    intro d hd
    simp only [ArticlesIn.toDf, Option.some.injEq] at hd
    subst hd
    decide
  exact ⟨Or.inr (Or.inr h),
    save_to_db_error_paths_no_write p0 (fun _ => false) [artB] (.dfIn dfBad)
      (Or.inr (Or.inr h))⟩

theorem dedupGo_sublist {κ : Type} [DecidableEq κ] (k : Article → κ) :
    ∀ fuel l, List.Sublist (dedupGo k fuel l) l := by
  intro fuel
  induction fuel with
  | zero =>
    intro l
    cases l with
    | nil => exact List.nil_sublist _
    | cons x t => exact List.nil_sublist _
  | succ n ih =>
    intro l
    cases l with
    | nil => exact List.Sublist.refl []
    | cons x t =>
      show List.Sublist (x :: dedupGo k n (t.filter (fun y => k y ≠ k x))) (x :: t)
      exact List.Sublist.cons₂ x
        ((ih _).trans (List.filter_sublist t))

theorem dedupByKey_sublist {κ : Type} [DecidableEq κ] (k : Article → κ)
    (l : List Article) : List.Sublist (dedupByKey k l) l :=
  dedupGo_sublist k l.length l

theorem dedupGo_pairwise {κ : Type} [DecidableEq κ] (k : Article → κ) :
    ∀ fuel l, (dedupGo k fuel l).Pairwise (fun a b => k a ≠ k b) := by
  intro fuel
  induction fuel with
  | zero =>
    intro l
    cases l with
    | nil => exact List.Pairwise.nil
    | cons x t => exact List.Pairwise.nil
  | succ n ih =>
    intro l
    cases l with
    | nil => exact List.Pairwise.nil
    | cons x t =>
      show List.Pairwise _ (x :: dedupGo k n (t.filter (fun y => k y ≠ k x)))
      refine List.Pairwise.cons ?_ (ih _)
      intro y hy
      have hyf : y ∈ t.filter (fun y => k y ≠ k x) :=
        (dedupGo_sublist k n _).subset hy
      have hne := List.of_mem_filter hyf
      simp only [decide_not, Bool.not_eq_true', decide_eq_false_iff_not] at hne
      exact fun hc => hne hc.symm

theorem dedupByKey_pairwise {κ : Type} [DecidableEq κ] (k : Article → κ)
    (l : List Article) :
    (dedupByKey k l).Pairwise (fun a b => k a ≠ k b) :=
  dedupGo_pairwise k l.length l

theorem dedupGo_cover {κ : Type} [DecidableEq κ] (k : Article → κ)
    (r : Article → Article → Prop) [IsTotal Article r] :
    ∀ fuel l, l.length ≤ fuel → List.Sorted r l →
      ∀ b ∈ l, ∃ a ∈ dedupGo k fuel l, k a = k b ∧ r a b := by
  intro fuel
  induction fuel with
  | zero =>
    intro l hlen _ b hb
    rw [Nat.le_zero, List.length_eq_zero] at hlen
    subst hlen
    cases hb
  | succ n ih =>
    intro l hlen hs b hb
    cases l with
    | nil => cases hb
    | cons x t =>
      have hred : dedupGo k (n + 1) (x :: t) =
          x :: dedupGo k n (t.filter (fun y => k y ≠ k x)) := rfl
      rw [hred]
      rcases List.mem_cons.mp hb with hbx | hbt
      · subst hbx
        exact ⟨b, List.mem_cons_self _ _, rfl,
          (IsTotal.total b b).elim id id⟩
      · by_cases hk : k b = k x
        · exact ⟨x, List.mem_cons_self _ _, hk.symm,
            (List.sorted_cons.mp hs).1 b hbt⟩
        · have hbf : b ∈ t.filter (fun y => k y ≠ k x) :=
            List.mem_filter.mpr ⟨hbt, by simpa using hk⟩
          have hlen2 : (t.filter (fun y => k y ≠ k x)).length ≤ n := by
            have h1 := t.length_filter_le (fun y => decide (k y ≠ k x))
            have h2 : t.length + 1 ≤ n + 1 := by simpa using hlen
            omega
          have hs2 : List.Sorted r (t.filter (fun y => k y ≠ k x)) :=
            List.Pairwise.sublist
              ((List.filter_sublist t).trans (List.sublist_cons_self x t)) hs
          obtain ⟨a, ha, hak, har⟩ := ih _ hlen2 hs2 b hbf
          exact ⟨a, List.mem_cons_of_mem x ha, hak, har⟩

theorem dedupByKey_cover {κ : Type} [DecidableEq κ] (k : Article → κ)
    (r : Article → Article → Prop) [IsTotal Article r] (l : List Article)
    (hs : List.Sorted r l) (b : Article) (hb : b ∈ l) :
    ∃ a ∈ dedupByKey k l, k a = k b ∧ r a b :=
  dedupGo_cover k r l.length l (le_refl _) hs b hb

theorem pairwise_key_inj {κ : Type} (k : Article → κ) :
    ∀ l : List Article, l.Pairwise (fun a b => k a ≠ k b) →
      ∀ x ∈ l, ∀ y ∈ l, k x = k y → x = y := by
  intro l
  induction l with
  | nil => intro _ x hx; cases hx
  | cons z t ih =>
    intro hp x hx y hy hk
    have hz := List.pairwise_cons.mp hp
    rcases List.mem_cons.mp hx with hx1 | hx2 <;>
      rcases List.mem_cons.mp hy with hy1 | hy2
    · exact hx1.trans hy1.symm
    · subst hx1; exact absurd hk (hz.1 y hy2)
    · subst hy1; exact absurd hk.symm (hz.1 x hx2)
    · exact ih hz.2 x hx2 y hy2 hk

theorem countUrl_sublist {l1 l2 : List Article} (h : List.Sublist l1 l2)
    (u : String) : countUrl l1 u ≤ countUrl l2 u :=
  (h.filter _).length_le

theorem countUrl_perm {l1 l2 : List Article} (h : l1.Perm l2) (u : String) :
    countUrl l1 u = countUrl l2 u :=
  (h.filter _).length_eq

theorem countUrl_le_one_of_pairwise (l : List Article)
    (hp : l.Pairwise (fun a b => a.url ≠ b.url)) (u : String) :
    countUrl l u ≤ 1 := by
  induction l with
  | nil => simp [countUrl]
  | cons x t ih =>
    have hx := List.pairwise_cons.mp hp
    rw [countUrl_cons]
    by_cases hxu : x.url = u
    · have ht : countUrl t u = 0 := by
        have : t.filter (fun a => decide (a.url = u)) = [] := by
          rw [List.filter_eq_nil]
          intro a ha
          simp only [decide_eq_true_eq]
          exact fun hc => hx.1 a ha (hxu.trans hc.symm)
        simp [countUrl, this]
      rw [ht, if_pos hxu]
    · rw [if_neg hxu]
      have := ih hx.2
      omega

theorem get_torrc_proxies_eq_firstParse (fs : String → Option (List String)) :
    ∀ paths, get_torrc_proxies fs paths =
      (firstTorrcParse fs paths).getD DEFAULT_PROXIES := by
  intro paths
  induction paths with
  | nil => rfl
  | cons pth rest ih =>
    simp only [firstTorrcParse, List.findSome?_cons] at ih ⊢
    cases hf : fs pth with
    | none => simp [get_torrc_proxies, hf, ih]
    | some cs =>
      cases cs with
      | nil => simp [get_torrc_proxies, hf, ih]
      | cons c rest2 =>
        by_cases hp : (parseTorrc c).isEmpty
        · have hpe : parseTorrc c = [] := by simpa [List.isEmpty_iff] using hp
          simp [get_torrc_proxies, hf, hp, hpe, ih]
        · have hpe : ¬(parseTorrc c = []) := by
            simpa [List.isEmpty_iff] using hp
          simp [get_torrc_proxies, hf, hp, hpe]

theorem get_torrc_proxies_ne_nil (fs : String → Option (List String)) :
    ∀ paths, get_torrc_proxies fs paths ≠ [] := by
  intro paths
  induction paths with
  | nil => simp [get_torrc_proxies, DEFAULT_PROXIES]
  | cons pth rest ih =>
    cases hf : fs pth with
    | none => simpa [get_torrc_proxies, hf] using ih
    | some cs =>
      cases cs with
      | nil => simpa [get_torrc_proxies, hf] using ih
      | cons c rest2 =>
        by_cases hp : (parseTorrc c).isEmpty
        · simpa [get_torrc_proxies, hf, hp] using ih
        · simp only [get_torrc_proxies, hf, hp]
          simpa [List.isEmpty_iff] using hp

theorem listOfTorProxies_ne_nil (fs : String → Option (List String))
    (darwin : Bool) : listOfTorProxies fs darwin ≠ [] := by
  unfold listOfTorProxies
  by_cases h : (get_torrc_proxies fs
      (if darwin then ["/usr/local/etc/tor"] else TOR_PATHS)).isEmpty
  · simp [h, DEFAULT_PROXIES]
  · simp only [h, Bool.false_eq_true, if_false]
    simpa [List.isEmpty_iff] using h

theorem foldl_addPort_length (l : List Nat) :
    ∀ acc : List Nat, acc.length ≤
      (l.foldl (fun acc pt => if acc.contains pt then acc else acc ++ [pt])
        acc).length := by
  induction l with
  | nil => intro acc; exact le_refl _
  | cons pt t ih =>
    intro acc
    simp only [List.foldl_cons]
    by_cases hc : acc.contains pt
    · have he : (if acc.contains pt then acc else acc ++ [pt]) = acc := by
        rw [if_pos hc]
      rw [he]
      exact ih acc
    · have he : (if acc.contains pt then acc else acc ++ [pt]) = acc ++ [pt] := by
        rw [if_neg hc]
      rw [he]
      calc acc.length ≤ (acc ++ [pt]).length := by simp
        _ ≤ _ := ih (acc ++ [pt])

theorem get_tor_proxies_ne_nil (fs2 : String → Option String)
    (paths2 : List String) : get_tor_proxies fs2 paths2 ≠ [] := by
  unfold get_tor_proxies
  intro hc
  have hlen := congrArg List.length hc
  simp only [List.length_map, List.length_nil] at hlen
  have h5 := foldl_addPort_length
    (match firstExisting fs2 paths2 with
     | none => []
     | some c => (pyLines c).filterMap parseSocksLine2)
    DEFAULT_TOR_PORTS
  rw [hlen] at h5
  simp [DEFAULT_TOR_PORTS] at h5

theorem get_random_proxy_mem (proxies : List Proxy) (k : Nat)
    (h : proxies ≠ []) : get_random_proxy proxies k ∈ proxies := by
  unfold get_random_proxy
  have hie : proxies.isEmpty = false := by
    cases proxies with
    | nil => exact absurd rfl h
    | cons x t => rfl
  have hlt : k % proxies.length < proxies.length :=
    Nat.mod_lt _ (List.length_pos.mpr h)
  rw [hie]
  simp only [Bool.false_eq_true, if_false]
  rw [List.getD_eq_getElem _ _ hlt]
  exact List.getElem_mem hlt

/-- C7 counterexample: under a filesystem whose first searched path
holds two torrc files, the first without a SocksPort line and the second
with one, a torrc with a parseable SocksPort line exists under the
searched paths, yet get_torrc_proxies returns the hardcoded
DEFAULT_PROXIES (the second torrc is never read), which also differs
from the proxies built from either found torrc. -/
theorem get_torrc_skips_second_torrc_cex :
    fsX "/etc/tor" = some [torrcNoPort, torrcWithPort]
    ∧ "/etc/tor" ∈ TOR_PATHS
    ∧ parseTorrc torrcWithPort = [mkProxy "9051"]
    ∧ get_torrc_proxies fsX TOR_PATHS = DEFAULT_PROXIES
    ∧ DEFAULT_PROXIES ≠ parseTorrc torrcWithPort
    ∧ parseTorrc torrcNoPort = [] := by
  refine ⟨rfl, by decide, by decide, by decide, by decide, by decide⟩

/-- C7 (amended): get_torrc_proxies reads, per searched path in order,
only the first torrc found under it, returning the parse of the first
such torrc whose SocksPort lines yield at least one proxy and
DEFAULT_PROXIES when none does (even when a later torrc under a searched
path has parseable SocksPort lines); the module-level lists are never
empty and get_random_proxy always returns an entry of the module list,
each entry a socks5 pair with http and https keys. -/
theorem get_torrc_proxies_first_parsed_or_default
    (fs : String → Option (List String)) (paths : List String)
    (fs2 : String → Option String) (paths2 : List String) (darwin : Bool)
    (kk : Nat) : torrcSpec fs paths fs2 paths2 darwin kk := by
  refine ⟨get_torrc_proxies_eq_firstParse fs paths,
    get_torrc_proxies_ne_nil fs paths,
    listOfTorProxies_ne_nil fs darwin,
    get_tor_proxies_ne_nil fs2 paths2,
    get_random_proxy_mem _ kk (get_tor_proxies_ne_nil fs2 paths2),
    ?_⟩
  intro x hx
  unfold get_tor_proxies at hx
  obtain ⟨pt, _, hpt⟩ := List.mem_map.mp hx
  exact ⟨toString pt, hpt.symm⟩

theorem heap_get_append (l : List DataFrame) (u : Nat) (hu : u < l.length)
    (d : DataFrame) :
    (Heap.mk (l ++ [d])).get u = (Heap.mk l).get u := by
  unfold Heap.get
  exact List.getD_append l [d] _ u hu

theorem heap_get_set_ne (l : List DataFrame) (i u : Nat) (hne : i ≠ u)
    (d : DataFrame) :
    (Heap.mk (l.set i d)).get u = (Heap.mk l).get u := by
  unfold Heap.get
  simp [List.getD_eq_getElem?_getD, List.getElem?_set_ne hne]

theorem heap_alloc_get (h : Heap) (d : DataFrame) (u : Nat)
    (hu : u < h.dfs.length) : (h.alloc d).1.get u = h.get u :=
  heap_get_append h.dfs u hu d

theorem heap_alloc_set_get (h : Heap) (d d2 : DataFrame) (u : Nat)
    (hu : u < h.dfs.length) :
    ((h.alloc d).1.set (h.alloc d).2 d2).get u = h.get u := by
  show (Heap.mk ((h.dfs ++ [d]).set h.dfs.length d2)).get u = _
  rw [heap_get_set_ne _ _ _ (Nat.ne_of_lt hu).symm,
    heap_get_append h.dfs u hu d]

theorem heap_alloc_set_set_get (h : Heap) (d d2 d3 : DataFrame) (u : Nat)
    (hu : u < h.dfs.length) :
    (((h.alloc d).1.set (h.alloc d).2 d2).set (h.alloc d).2 d3).get u
      = h.get u := by
  show (Heap.mk (((h.dfs ++ [d]).set h.dfs.length d2).set h.dfs.length d3)).get u = _
  rw [heap_get_set_ne _ _ _ (Nat.ne_of_lt hu).symm]
  show (Heap.mk ((h.dfs ++ [d]).set h.dfs.length d2)).get u = _
  rw [heap_get_set_ne _ _ _ (Nat.ne_of_lt hu).symm,
    heap_get_append h.dfs u hu d]

/-- save_articles_to_db_heap leaves every previously allocated object
untouched. -/
theorem save_db_heap_frame (p : String → Int) (mOracle : Nat → Bool)
    (coll : List Article) (h : Heap) (r u : Nat)
    (hu : u < h.dfs.length) :
    (save_articles_to_db_heap p mOracle coll h r).1.get u = h.get u := by
  simp only [save_articles_to_db_heap]
  split
  · rfl
  · split
    · split
      · split
        · exact heap_alloc_set_get h _ _ u hu
        · exact heap_alloc_set_get h _ _ u hu
      · exact heap_alloc_set_get h _ _ u hu
    · exact heap_alloc_get h _ u hu

/-- save_articles_to_clickhouse_heap leaves every previously allocated
object untouched. -/
theorem save_ch_heap_frame_get (p : String → Int)
    (chOracle : Nat → Nat → Bool) (tableAvail : Bool) (ch : List Article)
    (h : Heap) (r : Nat) (dedup : Bool) (bs ra : Nat) (u : Nat)
    (hu : u < h.dfs.length) :
    (save_articles_to_clickhouse_heap p chOracle tableAvail ch h r
        dedup bs ra).1.get u = h.get u := by
  simp only [save_articles_to_clickhouse_heap]
  split
  · rfl
  · split
    · split
      · exact heap_alloc_set_set_get h _ _ _ u hu
      · exact heap_alloc_set_set_get h _ _ _ u hu
    · exact heap_alloc_get h _ u hu

/-- save_articles_to_clickhouse_heap never shrinks the heap. -/
theorem save_ch_heap_frame_len (p : String → Int)
    (chOracle : Nat → Nat → Bool) (tableAvail : Bool) (ch : List Article)
    (h : Heap) (r : Nat) (dedup : Bool) (bs ra : Nat) :
    h.dfs.length ≤ (save_articles_to_clickhouse_heap p chOracle tableAvail
      ch h r dedup bs ra).1.dfs.length := by
  simp only [save_articles_to_clickhouse_heap]
  split
  · exact le_refl _
  · split
    · split
      · simp [Heap.alloc, Heap.set]
      · simp [Heap.alloc, Heap.set]
    · simp [Heap.alloc]

/-- save_articles_to_all_dbs_heap leaves every previously allocated
object untouched. -/
theorem save_all_heap_frame (p : String → Int) (env : Env)
    (mOracle : Nat → Bool) (chOracle : Nat → Nat → Bool) (tableAvail : Bool)
    (dbs : DBs) (h : Heap) (r : Nat) (um uc cad : Bool) (u : Nat)
    (hu : u < h.dfs.length) :
    (save_articles_to_all_dbs_heap p env mOracle chOracle tableAvail dbs
        h r um uc cad).1.get u = h.get u := by
  have hca : ∀ d, (h.alloc d).1.get u = h.get u := fun d =>
    heap_alloc_get h d u hu
  have hlen1 : ∀ d, u < (h.alloc d).1.dfs.length := by
    intro d
    show u < (h.dfs ++ [d]).length
    simp only [List.length_append, List.length_cons, List.length_nil]
    omega
  have hca2 : ∀ d d2, ((h.alloc d).1.alloc d2).1.get u = h.get u := by
    intro d d2
    rw [heap_alloc_get _ _ u (hlen1 d)]
    exact hca d
  have hlen2 : ∀ d d2, u < ((h.alloc d).1.alloc d2).1.dfs.length := by
    intro d d2
    show u < ((h.dfs ++ [d]) ++ [d2]).length
    simp only [List.length_append, List.length_cons, List.length_nil]
    omega
  have hch : ∀ (hh : Heap) rr (dd : Bool), u < hh.dfs.length →
      hh.get u = h.get u →
      (save_articles_to_clickhouse_heap p chOracle tableAvail dbs.ch hh rr
        dd 1000 3).1.get u = h.get u := by
    intro hh rr dd hl he
    rw [save_ch_heap_frame_get p chOracle tableAvail dbs.ch hh rr dd
      1000 3 u hl]
    exact he
  simp only [save_articles_to_all_dbs_heap]
  split
  · exact hca _
  · split
    · split
      · exact hca2 _ _
      · split
        · exact hch _ _ _ (hlen2 _ _) (hca2 _ _)
        · exact hca2 _ _
    · split
      · exact hca _
      · split
        · exact hch _ _ _ (hlen1 _) (hca _)
        · exact hca _

theorem firstSuccess_isSome (f : Nat → Bool) :
    ∀ n, (firstSuccess f n).isSome = (List.range n).any f := by
  intro n
  induction n with
  | zero => rfl
  | succ m ih =>
    simp only [firstSuccess, List.range_succ, List.any_append, ← ih]
    cases hf : firstSuccess f m with
    | some k => simp
    | none =>
      simp only [Option.isSome_none, Bool.false_or, List.any_cons,
        List.any_nil, Bool.or_false]
      by_cases hm : f m
      · simp [hm]
      · simp [hm]

theorem insertBatches_spec (chOracle : Nat → Nat → Bool) (retry : Nat) :
    ∀ (bs : List (List Article)) (ch : List Article) (i : Nat),
      insertBatches chOracle retry ch i bs =
        (ch ++ succeededRows chOracle retry i bs,
         (succeededRows chOracle retry i bs).length) := by
  intro bs
  induction bs with
  | nil => intro ch i; simp [insertBatches, succeededRows]
  | cons b t ih =>
    intro ch i
    have hfs : (firstSuccess (chOracle i) retry).isSome =
        batchSucceeds chOracle retry i :=
      firstSuccess_isSome (chOracle i) retry
    have hE : insertBatches chOracle retry ch i (b :: t) =
        if batchSucceeds chOracle retry i = true then
          ((insertBatches chOracle retry (ch ++ b) (i + 1) t).1,
           b.length + (insertBatches chOracle retry (ch ++ b) (i + 1) t).2)
        else insertBatches chOracle retry ch (i + 1) t := by
      rw [← hfs]
      rfl
    have hS : succeededRows chOracle retry i (b :: t) =
        (if batchSucceeds chOracle retry i = true then b else [])
          ++ succeededRows chOracle retry (i + 1) t := rfl
    rw [hE, hS]
    by_cases hs : batchSucceeds chOracle retry i = true
    · rw [if_pos hs, if_pos hs, ih (ch ++ b) (i + 1)]
      simp [List.append_assoc]
    · rw [if_neg hs, if_neg hs, ih ch (i + 1)]
      simp

theorem chunksGo_join {α : Type} (n : Nat) (hn : 1 ≤ n) :
    ∀ (fuel : Nat) (l : List α), l.length ≤ fuel →
      (chunksGo n fuel l).flatten = l := by
  intro fuel
  induction fuel with
  | zero =>
    intro l hl
    rw [Nat.le_zero, List.length_eq_zero] at hl
    subst hl
    rfl
  | succ m ih =>
    intro l hl
    cases l with
    | nil => rfl
    | cons x t =>
      show ((x :: t).take n :: chunksGo n m ((x :: t).drop n)).flatten = x :: t
      rw [List.flatten_cons]
      rw [ih ((x :: t).drop n) (by
        rw [List.length_drop]
        simp only [List.length_cons] at hl ⊢
        omega)]
      exact List.take_append_drop n (x :: t)

theorem chunksGo_mem_length {α : Type} (n : Nat) :
    ∀ (fuel : Nat) (l : List α) (b : List α),
      b ∈ chunksGo n fuel l → b.length ≤ n := by
  intro fuel
  induction fuel with
  | zero =>
    intro l b hb
    cases l with
    | nil => cases hb
    | cons x t => cases hb
  | succ m ih =>
    intro l b hb
    cases l with
    | nil => cases hb
    | cons x t =>
      rcases List.mem_cons.mp hb with hb1 | hb2
      · subst hb1; exact List.length_take_le n (x :: t)
      · exact ih _ b hb2

theorem chunksOf_join {α : Type} (n : Nat) (hn : 1 ≤ n) (l : List α) :
    (chunksOf n l).flatten = l :=
  chunksGo_join n hn l.length l (le_refl _)

theorem chunksOf_mem_length {α : Type} (n : Nat) (l b : List α)
    (hb : b ∈ chunksOf n l) : b.length ≤ n :=
  chunksGo_mem_length n l.length l b hb

/-- The attempt counter of save_articles_to_db_exc never exceeds one:
there is no retry loop around the MongoDB bulk write. -/
theorem save_db_attempts_le_one (p : String → Int) (mOracle : Nat → Bool)
    (coll : List Article) (input : ArticlesIn) :
    (save_articles_to_db_exc p mOracle coll input).2 ≤ 1 := by
  unfold save_articles_to_db_exc
  split
  · exact Nat.zero_le 1
  · split
    · exact Nat.zero_le 1
    · simp only [saveDfToMongo]
      split
      · split
        · split
          · exact le_refl 1
          · exact le_refl 1
        · exact Nat.zero_le 1
      · exact Nat.zero_le 1

/-- C3 counterexample: on a valid two-row batch with a network oracle
that fails every bulk write, the MongoDB path of the pipeline issues
exactly one bulk_write call and propagates the exception, instead of
attempting the write up to three times and continuing without raising as
the claim states for the MongoDB bulk write call. -/
theorem mongo_bulk_write_no_retry_cex :
    save_articles_to_db_exc p0 (fun _ => false) [] (.dfIn dfW)
      = (Except.error (), 1) := by
  rfl

/-- C3 (amended): save_articles_to_clickhouse splits the new articles
into batches of batch_size and retries each batch insert up to
retry_attempts times against the oracle, continuing with the next batch
after the final failure, appending exactly the succeeded batches and
returning their total row count; the MongoDB bulk write is issued at
most once with no retry and its failure propagates as an exception to
the caller. -/
theorem clickhouse_retry_mongo_single_attempt (p : String → Int)
    (chOracle : Nat → Nat → Bool) (mOracle : Nat → Bool)
    (ch coll : List Article) (d : DataFrame) (dedup : Bool)
    (batch_size retry : Nat) :
    retrySpec p chOracle mOracle ch coll d dedup batch_size retry := by
  refine ⟨?_, ?_, ?_, save_db_attempts_le_one p mOracle coll (.dfIn d), ?_⟩
  · intro hreq hne
    have hEmptyIn : (ArticlesIn.dfIn d).isEmptyIn = false := hne
    unfold save_articles_to_clickhouse
    simp only [hEmptyIn, Bool.false_eq_true, if_false, ArticlesIn.toDf,
      hreq, if_true]
    rw [insertBatches_spec]
  · intro hbs
    exact ⟨chunksOf_join batch_size hbs _, fun b hb =>
      chunksOf_mem_length batch_size _ b hb⟩
  · intro i
    simp [batchSucceeds, List.any_eq_true, List.mem_range]
  · intro hreq hne hm
    have hrows : d.rows ≠ [] := by
      simp [DataFrame.isEmpty] at hne
      exact hne.1
    have hlen : 0 < (setDateCol p d).rows.length := by
      simp only [setDateCol, List.length_map]
      exact List.length_pos.mpr hrows
    have hEmptyIn : (ArticlesIn.dfIn d).isEmptyIn = false := hne
    unfold save_articles_to_db_exc saveDfToMongo
    simp only [hEmptyIn, Bool.false_eq_true, if_false, ArticlesIn.toDf,
      hreq, if_true, gt_iff_lt, hlen, hm]

/-- Witness for C3 at a concrete batch, an oracle failing the first
batch attempt but succeeding later, and a failing MongoDB oracle. -/
theorem clickhouse_retry_witness :
    retrySpec p0 (fun _ a => decide (a = 2)) (fun _ => false) [] []
      dfW false 1 3 :=
  clickhouse_retry_mongo_single_attempt p0 (fun _ a => decide (a = 2))
    (fun _ => false) [] [] dfW false 1 3

/-- C10: the save pipeline never mutates its caller's DataFrame: each of
the three save functions copies the frame and writes only to its own
copy, so the object at the caller's reference is unchanged for every
network outcome. -/
theorem save_pipeline_preserves_caller_frame (p : String → Int) (env : Env)
    (mOracle : Nat → Bool) (chOracle : Nat → Nat → Bool) (tableAvail : Bool)
    (coll ch : List Article) (dbs : DBs) (h : Heap) (r : Nat)
    (dedup : Bool) (bs ra : Nat) (um uc cad : Bool)
    (hr : r < h.dfs.length) :
    frameSpec p env mOracle chOracle tableAvail coll ch dbs h r dedup
      bs ra um uc cad :=
  ⟨save_db_heap_frame p mOracle coll h r r hr,
   save_ch_heap_frame_get p chOracle tableAvail ch h r dedup bs ra r hr,
   save_all_heap_frame p env mOracle chOracle tableAvail dbs h r um uc cad r hr⟩

/-- Witness for C10: a singleton heap holding the sample frame, failing
network oracles. -/
theorem save_pipeline_frame_witness :
    0 < (Heap.mk [dfW]).dfs.length
    ∧ frameSpec p0 ⟨true, true⟩ (fun _ => false) (fun _ _ => false) true
        [] [] ⟨[], []⟩ (Heap.mk [dfW]) 0 true 1000 3 true true true :=
  ⟨by decide,
   save_pipeline_preserves_caller_frame p0 ⟨true, true⟩ (fun _ => false)
     (fun _ _ => false) true [] [] ⟨[], []⟩ (Heap.mk [dfW]) 0 true 1000 3
     true true true (by decide)⟩

/-- C4: process_articles deduplicates by url keeping the most recent row
per url, removes Bloomberg connector rows, sorts ascending by date with
dates coerced to datetime, and returns None on empty input and an empty
frame when everything is filtered. -/
theorem process_articles_dedup_sort_filter (p : String → Int)
    (articles : List Article) (h : articles ≠ []) :
    processSpec p articles ∧ process_articles p [] = none := by
  refine ⟨?_, by simp [process_articles]⟩
  have hie : articles.isEmpty = false := by
    cases articles with
    | nil => exact absurd rfl h
    | cons x t => rfl
  have hrun : process_articles p articles =
      some ⟨schemaCols,
        ((List.insertionSort dateAsc
            (dedupByKey (fun a => a.url)
              (dedupByKey rowKey (List.insertionSort dateDesc articles)))).filter
          (fun a => !hasBloomberg a.body)).map (setDate p)⟩ := by
    simp [process_articles, hie, DataFrame.isEmpty, schemaCols]
  set sortedD := List.insertionSort dateDesc articles with hsortedD
  set d1 := dedupByKey rowKey sortedD with hd1
  set d2 := dedupByKey (fun a => a.url) d1 with hd2
  set asc := List.insertionSort dateAsc d2 with hasc
  set q := asc.filter (fun a => !hasBloomberg a.body) with hq
  have hqd2 : ∀ r ∈ q, r ∈ d2 := by
    intro r hr
    exact (List.perm_insertionSort dateAsc d2).subset
      (List.mem_of_mem_filter hr)
  have hd2d1 : List.Sublist d2 d1 := dedupByKey_sublist _ d1
  have hd1s : List.Sublist d1 sortedD := dedupByKey_sublist _ sortedD
  have hmemart : ∀ r ∈ q, r ∈ articles := by
    intro r hr
    exact (List.perm_insertionSort dateDesc articles).subset
      (hd1s.subset (hd2d1.subset (hqd2 r hr)))
  have hd2pair : d2.Pairwise (fun a b => a.url ≠ b.url) :=
    dedupByKey_pairwise _ d1
  -- every input row is dominated by a kept row of d2 with its url
  have hcover : ∀ b ∈ articles, ∃ a ∈ d2, a.url = b.url ∧
      dkey b.date ≤ dkey a.date := by
    intro b hb
    have hbs : b ∈ sortedD :=
      (List.perm_insertionSort dateDesc articles).mem_iff.mpr hb
    have hs1 : List.Sorted dateDesc sortedD :=
      List.sorted_insertionSort dateDesc articles
    obtain ⟨a1, ha1, hk1, hr1⟩ := dedupByKey_cover rowKey dateDesc sortedD hs1 b hbs
    have hurl1 : a1.url = b.url := congrArg (fun z => z.1) hk1
    have hdate1 : a1.date = b.date := by
      have := congrArg (fun z => z.2.2.2.1) hk1
      simpa [rowKey] using this
    have hs2 : List.Sorted dateDesc d1 := List.Pairwise.sublist hd1s hs1
    obtain ⟨a2, ha2, hk2, hr2⟩ :=
      dedupByKey_cover (fun a => a.url) dateDesc d1 hs2 a1 ha1
    refine ⟨a2, ha2, hk2.trans hurl1, ?_⟩
    have h1 : dkey b.date = dkey a1.date := by rw [hdate1]
    exact h1.le.trans hr2
  refine ⟨q, hrun, ?_, hmemart, ?_, ?_, ?_, ?_⟩
  · intro u
    have h1 : countUrl q u ≤ countUrl asc u :=
      countUrl_sublist (List.filter_sublist asc) u
    have h2 : countUrl asc u = countUrl d2 u :=
      countUrl_perm (List.perm_insertionSort dateAsc d2) u
    have h3 := countUrl_le_one_of_pairwise d2 hd2pair u
    omega
  · intro r hr b hb hurl
    obtain ⟨a2, ha2, hk2, hr2⟩ := hcover b hb
    have hrd2 : r ∈ d2 := hqd2 r hr
    have : a2 = r :=
      pairwise_key_inj (fun a => a.url) d2 hd2pair a2 ha2 r hrd2
        (hk2.trans hurl)
    exact this ▸ hr2
  · exact (List.sorted_insertionSort dateAsc d2).sublist
      (List.filter_sublist asc)
  · intro r hr
    have := List.of_mem_filter hr
    simpa using this
  · intro hall
    rw [hq, List.filter_eq_nil]
    intro a ha
    have : a ∈ articles := by
      exact (List.perm_insertionSort dateDesc articles).subset
        (hd1s.subset (hd2d1.subset
          ((List.perm_insertionSort dateAsc d2).subset ha)))
    simp [hall a this]

/-- Witness for C4 at a concrete scraper batch. -/
theorem process_articles_witness :
    [artA, artB, artA] ≠ [] ∧ processSpec p0 [artA, artB, artA] :=
  ⟨by decide,
   (process_articles_dedup_sort_filter p0 [artA, artB, artA] (by decide)).1⟩

/-- C5: search_news issues at most one database query and returns at
most limit articles, all within the window and matching the query
case-insensitively in title or body, from the given sources when listed,
ordered by date newest first; the empty query returns the empty list
without querying. -/
theorem search_news_single_query_filters (coll : List Article) (now : Int)
    (query : String) (days : Int) (sources : List String) (limit : Nat) :
    searchSpec coll now query days sources limit := by
  by_cases hq : query = ""
  · have he : search_news coll now query days sources limit = ([], 0) := by
      simp [search_news, hq]
    refine ⟨?_, ?_, ?_, ?_, fun _ => he⟩ <;> rw [he] <;> simp
  · have he : search_news coll now query days sources limit =
        ((List.insertionSort dateDesc
            (coll.filter (searchMatches (now - days * 86400) query sources))).take limit,
         1) := by
      simp [search_news, hq]
    refine ⟨?_, ?_, ?_, ?_, fun hcon => absurd hcon hq⟩
    · rw [he]
      simp only [List.length_take]
      exact min_le_left _ _
    · intro a ha
      rw [he] at ha
      have ha2 : a ∈ List.insertionSort dateDesc
          (coll.filter (searchMatches (now - days * 86400) query sources)) :=
        List.take_subset _ _ ha
      have ha3 : a ∈ coll.filter (searchMatches (now - days * 86400) query sources) :=
        (List.perm_insertionSort dateDesc _).mem_iff.mp ha2
      have hmem := List.mem_of_mem_filter ha3
      have hm : searchMatches (now - days * 86400) query sources a = true :=
        List.of_mem_filter ha3
      unfold searchMatches at hm
      cases hdate : a.date with
      | str s => rw [hdate] at hm; simp at hm
      | dt t =>
        rw [hdate] at hm
        simp only [Bool.and_eq_true, decide_eq_true_eq, Bool.or_eq_true] at hm
        refine ⟨hmem, ⟨t, rfl, hm.1.1⟩, ?_, ?_⟩
        · rcases hm.1.2 with h | h
          · exact Or.inl h
          · exact Or.inr h
        · intro hs
          rcases hm.2 with h | h
          · exact absurd (List.isEmpty_iff.mp h) hs
          · exact List.mem_of_elem_eq_true h
    · rw [he]
      exact (List.sorted_insertionSort dateDesc _).sublist (List.take_sublist _ _)
    · rw [he]

/-- Witness for C5 at a concrete collection and query. -/
theorem search_news_single_query_witness :
    searchSpec [{ artA with date := .dt 100 }, artB] 200 "ta" 7 ["srcA"] 20 :=
  search_news_single_query_filters [{ artA with date := .dt 100 }, artB] 200
    "ta" 7 ["srcA"] 20

/-- C9: the deprecated get_existing_urls returns the empty set for every
combination of arguments and issues no query against either store. -/
theorem get_existing_urls_always_empty (dbs : DBs) (mongodb clickhouse : Bool)
    (mongodb_collection clickhouse_table : String) (max_urls : Nat) :
    get_existing_urls dbs mongodb clickhouse mongodb_collection
      clickhouse_table max_urls = ∅ := rfl

theorem mem_foldl_union {β : Type} (f : β → Finset String) :
    ∀ (bs : List β) (init : Finset String) (u : String),
      u ∈ bs.foldl (fun acc b => acc ∪ f b) init ↔
        u ∈ init ∨ ∃ b ∈ bs, u ∈ f b := by
  intro bs
  induction bs with
  | nil => intro init u; simp
  | cons b t ih =>
    intro init u
    simp only [List.foldl_cons, ih, Finset.mem_union, List.mem_cons]
    constructor
    · rintro ((h1 | h2) | ⟨c, hc, hu⟩)
      · exact Or.inl h1
      · exact Or.inr ⟨b, Or.inl rfl, h2⟩
      · exact Or.inr ⟨c, Or.inr hc, hu⟩
    · rintro (h1 | ⟨c, hc, hu⟩)
      · exact Or.inl (Or.inl h1)
      · rcases hc with hc1 | hc2
        · exact Or.inl (Or.inr (hc1 ▸ hu))
        · exact Or.inr ⟨c, hc2, hu⟩

theorem mem_chUrlQuery (ch : List Article) (c : List String) (u : String) :
    u ∈ (chUrlQuery ch c).toFinset ↔ ∃ a ∈ ch, a.url = u ∧ u ∈ c := by
  simp only [chUrlQuery, List.mem_toFinset, List.mem_map, List.mem_filter]
  constructor
  · rintro ⟨a, ⟨ha, hc⟩, rfl⟩
    exact ⟨a, ha, rfl, by simpa [List.elem_iff] using hc⟩
  · rintro ⟨a, ha, rfl, hu⟩
    exact ⟨a, ⟨ha, by simpa [List.elem_iff] using hu⟩, rfl⟩

theorem mem_mongoUrlQuery (m : List Article) (urls : List String)
    (u : String) :
    u ∈ (mongoUrlQuery m urls).toFinset ↔ ∃ a ∈ m, a.url = u ∧ u ∈ urls := by
  simp only [mongoUrlQuery, List.mem_toFinset, List.mem_map, List.mem_filter]
  constructor
  · rintro ⟨a, ⟨ha, hc⟩, rfl⟩
    exact ⟨a, ha, rfl, by simpa [List.elem_iff] using hc⟩
  · rintro ⟨a, ha, rfl, hu⟩
    exact ⟨a, ⟨ha, by simpa [List.elem_iff] using hu⟩, rfl⟩

theorem mem_chunksOf (urls : List String) (u : String) :
    (∃ c ∈ chunksOf 1000 urls, u ∈ c) ↔ u ∈ urls := by
  constructor
  · rintro ⟨c, hc, hu⟩
    have := List.mem_flatten.mpr ⟨c, hc, hu⟩
    rwa [chunksOf_join 1000 (by omega) urls] at this
  · intro hu
    have : u ∈ (chunksOf 1000 urls).flatten := by
      rwa [chunksOf_join 1000 (by omega) urls]
    exact List.mem_flatten.mp this

theorem mem_chDedupQuery (ch : List Article) (urls : List String)
    (u : String) :
    u ∈ chDedupQuery ch urls ↔ ∃ a ∈ ch, a.url = u ∧ u ∈ urls := by
  unfold chDedupQuery
  rw [mem_foldl_union]
  simp only [Finset.not_mem_empty, false_or]
  constructor
  · rintro ⟨c, hc, hu⟩
    obtain ⟨a, ha, rfl, huc⟩ := (mem_chUrlQuery ch c u).mp hu
    exact ⟨a, ha, rfl, (mem_chunksOf urls a.url).mp ⟨c, hc, huc⟩⟩
  · rintro ⟨a, ha, rfl, hu⟩
    obtain ⟨c, hc, huc⟩ := (mem_chunksOf urls a.url).mpr hu
    exact ⟨c, hc, (mem_chUrlQuery ch c a.url).mpr ⟨a, ha, rfl, huc⟩⟩

/-- check_urls_exist with both stores enabled is the union of the
MongoDB query and the chunked ClickHouse query, both restricted to the
batch urls. -/
theorem check_urls_exist_eq (dbs : DBs) (urls : List String) :
    check_urls_exist ⟨true, true⟩ dbs urls true true =
      (mongoUrlQuery dbs.mongo urls).toFinset
        ∪ (chUrlQuery dbs.ch urls).toFinset := by
  unfold check_urls_exist
  by_cases hu : urls.isEmpty
  · have hnil : urls = [] := List.isEmpty_iff.mp hu
    subst hnil
    ext u
    simp [mongoUrlQuery, chUrlQuery, List.filter]
  · simp only [hu, Bool.false_eq_true, if_false, Bool.and_self, if_true]
    ext u
    simp only [Finset.mem_union]
    rw [show ((chunksOf 1000 urls).foldl
        (fun acc chunk => acc ∪ (chUrlQuery dbs.ch chunk).toFinset) ∅)
        = chDedupQuery dbs.ch urls from rfl]
    rw [mem_chDedupQuery, mem_chUrlQuery]

theorem contains_isEmpty_false (l : List String) (x : String)
    (h : l.contains x = true) : l.isEmpty = false := by
  cases l with
  | nil => simp [List.contains] at h
  | cons a t => rfl

theorem hasRequiredCols_url (d : DataFrame)
    (h : hasRequiredCols d = true) : d.cols.contains "url" = true := by
  simp only [hasRequiredCols, requiredCols, List.all_cons, List.all_nil,
    Bool.and_eq_true] at h
  exact h.1

theorem countUrl_eq_zero_of_not_mem (l : List Article) (u : String)
    (h : u ∉ l.map (fun a => a.url)) : countUrl l u = 0 := by
  induction l with
  | nil => rfl
  | cons x t ih =>
    simp only [List.map_cons, List.mem_cons] at h
    push_neg at h
    rw [countUrl_cons, ih h.2, if_neg (fun hc => h.1 hc.symm)]

theorem succeededRows_all_true (retry : Nat) (hr : 1 ≤ retry) :
    ∀ (bs : List (List Article)) (i : Nat),
      succeededRows (fun _ _ => true) retry i bs = bs.flatten := by
  intro bs
  induction bs with
  | nil => intro i; rfl
  | cons b t ih =>
    intro i
    have hbs : batchSucceeds (fun _ _ => true) retry i = true := by
      cases retry with
      | zero => omega
      | succ m => simp [batchSucceeds, List.range_succ]
    show (if batchSucceeds (fun _ _ => true) retry i = true then b else [])
        ++ succeededRows (fun _ _ => true) retry (i + 1) t = (b :: t).flatten
    rw [if_pos hbs, ih (i + 1), List.flatten_cons]

/-- Unfolds save_articles_to_clickhouse on a valid DataFrame with the
table available. -/
theorem save_ch_df_eq (p : String → Int) (chOracle : Nat → Nat → Bool)
    (ch : List Article) (d : DataFrame) (dedup : Bool)
    (batch_size retry : Nat) (hreq : hasRequiredCols d = true)
    (hne : d.isEmpty = false) :
    save_articles_to_clickhouse p chOracle true ch (.dfIn d) dedup
        batch_size retry =
      (ch ++ succeededRows chOracle retry 0 (chunksOf batch_size
        ((if dedup then
            (setDateCol p d).rows.filter (fun a => a.url ∉ chDedupQuery ch
              (((setDateCol p d).rows.filter (fun a => a.url ≠ "")).map
                (fun a => a.url)))
          else (setDateCol p d).rows).map (cleanArticle p))),
       (succeededRows chOracle retry 0 (chunksOf batch_size
        ((if dedup then
            (setDateCol p d).rows.filter (fun a => a.url ∉ chDedupQuery ch
              (((setDateCol p d).rows.filter (fun a => a.url ≠ "")).map
                (fun a => a.url)))
          else (setDateCol p d).rows).map (cleanArticle p)))).length) := by
  have hEmptyIn : (ArticlesIn.dfIn d).isEmptyIn = false := hne
  unfold save_articles_to_clickhouse
  simp only [hEmptyIn, Bool.false_eq_true, if_false, ArticlesIn.toDf,
    hreq, if_true]
  rw [insertBatches_spec]

/-- Unfolds save_articles_to_db_exc on a non-empty record list with the
required columns and a succeeding bulk write. -/
theorem save_db_exc_list_eq (p : String → Int) (coll : List Article)
    (cols : List String) (rows : List Article)
    (hreq : hasRequiredCols ⟨cols, rows⟩ = true) (hne : rows ≠ []) :
    save_articles_to_db_exc p (fun _ => true) coll
        (.listIn cols rows true) =
      (.ok ((applyBulkOps coll (rows.map (setDate p))).1,
            (applyBulkOps coll (rows.map (setDate p))).2.1
              + (applyBulkOps coll (rows.map (setDate p))).2.2), 1) := by
  have hie : rows.isEmpty = false := by
    cases rows with
    | nil => exact absurd rfl hne
    | cons x t => rfl
  have hlen : 0 < (setDateCol p (⟨cols, rows⟩ : DataFrame)).rows.length := by
    simp only [setDateCol, List.length_map]
    exact List.length_pos.mpr hne
  unfold save_articles_to_db_exc saveDfToMongo
  simp only [ArticlesIn.isEmptyIn, hie, Bool.false_eq_true, if_false,
    ArticlesIn.toDf, if_true, hreq, gt_iff_lt, hlen]
  simp [hlen]
  exact ⟨rfl, rfl⟩

/-- setDate is idempotent, so clean_article after the date coercion is
the identity on the date-coerced record. -/
theorem cleanArticle_setDate (p : String → Int) (a : Article) :
    cleanArticle p (setDate p a) = setDate p a := rfl

theorem map_clean_setDate (p : String → Int) (l : List Article) :
    (l.map (setDate p)).map (cleanArticle p) = l.map (setDate p) := by
  rw [List.map_map]
  rfl

theorem map_url_setDate (p : String → Int) (l : List Article) :
    (l.map (setDate p)).map (fun a => a.url) = l.map (fun a => a.url) := by
  rw [List.map_map]
  rfl

/-- Runs save_articles_to_all_dbs on a valid DataFrame with everything
enabled, the table available, and all writes succeeding: the batch is
filtered by check_urls_exist, and when anything is left the filtered
rows are bulk-upserted into MongoDB and appended to ClickHouse. -/
theorem save_all_df_run (p : String → Int) (dbs : DBs) (d : DataFrame)
    (hreq : hasRequiredCols d = true) (hne : d.isEmpty = false) :
    save_articles_to_all_dbs p ⟨true, true⟩ (fun _ => true)
        (fun _ _ => true) true dbs (.dfIn d) true true true =
      (let kept := d.rows.filter (fun a => a.url ∉
         check_urls_exist ⟨true, true⟩ dbs (d.rows.map (fun a => a.url))
           true true)
       if kept.isEmpty then (dbs, ⟨0, 0, 0⟩)
       else
         (⟨(applyBulkOps dbs.mongo (kept.map (setDate p))).1,
           dbs.ch ++ kept.map (setDate p)⟩,
          ⟨(applyBulkOps dbs.mongo (kept.map (setDate p))).2.1
             + (applyBulkOps dbs.mongo (kept.map (setDate p))).2.2,
           (kept.map (setDate p)).length,
           (applyBulkOps dbs.mongo (kept.map (setDate p))).2.1
             + (applyBulkOps dbs.mongo (kept.map (setDate p))).2.2
             + (kept.map (setDate p)).length⟩)) := by
  have hcu := hasRequiredCols_url d hreq
  have hcne := contains_isEmpty_false _ _ hcu
  unfold save_articles_to_all_dbs
  simp only [ArticlesIn.toDf, hne, Bool.false_eq_true, if_false, hcu,
    Bool.true_and, Bool.and_true, Bool.and_self, if_true, Bool.not_true,
    Bool.not_false]
  by_cases hk : (d.rows.filter (fun a => a.url ∉
      check_urls_exist ⟨true, true⟩ dbs (d.rows.map (fun a => a.url))
        true true)).isEmpty = true
  · rw [if_pos hk, if_pos hk]
  · have hkf : (d.rows.filter (fun a => a.url ∉
        check_urls_exist ⟨true, true⟩ dbs (d.rows.map (fun a => a.url))
          true true)).isEmpty = false := Bool.eq_false_iff.mpr hk
    have hkne : d.rows.filter (fun a => a.url ∉
        check_urls_exist ⟨true, true⟩ dbs (d.rows.map (fun a => a.url))
          true true) ≠ [] := by
      intro hc
      rw [hc] at hkf
      simp at hkf
    have hnotk : (!(d.rows.filter (fun a => a.url ∉
        check_urls_exist ⟨true, true⟩ dbs (d.rows.map (fun a => a.url))
          true true)).isEmpty) = true := by
      rw [hkf]
      rfl
    have hdfe : (DataFrame.mk d.cols (d.rows.filter (fun a => a.url ∉
        check_urls_exist ⟨true, true⟩ dbs (d.rows.map (fun a => a.url))
          true true))).isEmpty = false := by
      show ((d.rows.filter (fun a => a.url ∉
        check_urls_exist ⟨true, true⟩ dbs (d.rows.map (fun a => a.url))
          true true)).isEmpty || d.cols.isEmpty) = false
      rw [hkf, hcne]
      rfl
    have hnotdfe : (!(DataFrame.mk d.cols (d.rows.filter (fun a => a.url ∉
        check_urls_exist ⟨true, true⟩ dbs (d.rows.map (fun a => a.url))
          true true))).isEmpty) = true := by
      rw [hdfe]
      rfl
    have hdfreq : hasRequiredCols (DataFrame.mk d.cols
        (d.rows.filter (fun a => a.url ∉
          check_urls_exist ⟨true, true⟩ dbs (d.rows.map (fun a => a.url))
            true true))) = true := hreq
    rw [if_neg hk, if_neg hk, if_pos hnotk, if_pos hnotdfe]
    rw [save_db_exc_list_eq p dbs.mongo d.cols _ hdfreq hkne]
    rw [save_ch_df_eq p (fun _ _ => true) dbs.ch _ false 1000 3 hdfreq hdfe]
    have hrows : (setDateCol p (DataFrame.mk d.cols
        (d.rows.filter (fun a => a.url ∉
          check_urls_exist ⟨true, true⟩ dbs (d.rows.map (fun a => a.url))
            true true)))).rows =
        (d.rows.filter (fun a => a.url ∉
          check_urls_exist ⟨true, true⟩ dbs (d.rows.map (fun a => a.url))
            true true)).map (setDate p) := rfl
    simp only [Bool.false_eq_true, if_false]
    rw [hrows, map_clean_setDate, succeededRows_all_true 3 (by omega),
      chunksOf_join 1000 (by omega)]

/-- C1: with check_across_dbs, save_articles_to_all_dbs writes exactly
the articles whose url is not in the set returned by check_urls_exist,
which is the union of one MongoDB read query and one chunked ClickHouse
read query restricted to the batch's own urls; every article whose url
already exists in either store is skipped and no record is written for
its url. -/
theorem save_all_dbs_cross_dedup (p : String → Int) (dbs : DBs)
    (d : DataFrame) (hreq : hasRequiredCols d = true)
    (hne : d.isEmpty = false) : crossDedupSpec p dbs d := by
  have hrun := save_all_df_run p dbs d hreq hne
  simp only [crossDedupSpec]
  have hmemE : ∀ u, u ∈ check_urls_exist ⟨true, true⟩ dbs
      (d.rows.map (fun a => a.url)) true true ↔
      ((u ∈ dbs.mongo.map (fun a => a.url)
        ∨ u ∈ dbs.ch.map (fun a => a.url))
       ∧ u ∈ d.rows.map (fun a => a.url)) := by
    intro u
    rw [check_urls_exist_eq, Finset.mem_union, mem_mongoUrlQuery,
      mem_chUrlQuery]
    constructor
    · rintro (⟨a, ha, rfl, hu⟩ | ⟨a, ha, rfl, hu⟩)
      · exact ⟨Or.inl (List.mem_map.mpr ⟨a, ha, rfl⟩), hu⟩
      · exact ⟨Or.inr (List.mem_map.mpr ⟨a, ha, rfl⟩), hu⟩
    · rintro ⟨hm | hm, hu⟩
      · obtain ⟨a, ha, rfl⟩ := List.mem_map.mp hm
        exact Or.inl ⟨a, ha, rfl, hu⟩
      · obtain ⟨a, ha, rfl⟩ := List.mem_map.mp hm
        exact Or.inr ⟨a, ha, rfl, hu⟩
  have hEkept : ∀ u ∈ check_urls_exist ⟨true, true⟩ dbs
      (d.rows.map (fun a => a.url)) true true,
      u ∉ (d.rows.filter (fun a => a.url ∉
        check_urls_exist ⟨true, true⟩ dbs (d.rows.map (fun a => a.url))
          true true)).map (fun a => a.url) := by
    intro u hu hc
    obtain ⟨a, ha, rfl⟩ := List.mem_map.mp hc
    have hfa := List.of_mem_filter ha
    simp only [decide_eq_true_eq] at hfa
    exact hfa hu
  have hframe : ∀ u, u ∉ (d.rows.filter (fun a => a.url ∉
      check_urls_exist ⟨true, true⟩ dbs (d.rows.map (fun a => a.url))
        true true)).map (fun a => a.url) →
      countUrl (save_articles_to_all_dbs p ⟨true, true⟩ (fun _ => true)
        (fun _ _ => true) true dbs (.dfIn d) true true true).1.mongo u
        = countUrl dbs.mongo u
      ∧ countUrl (save_articles_to_all_dbs p ⟨true, true⟩ (fun _ => true)
        (fun _ _ => true) true dbs (.dfIn d) true true true).1.ch u
        = countUrl dbs.ch u := by
    intro u hu
    rw [hrun]
    by_cases hk : (d.rows.filter (fun a => a.url ∉
        check_urls_exist ⟨true, true⟩ dbs (d.rows.map (fun a => a.url))
          true true)).isEmpty = true
    · rw [if_pos hk]
      exact ⟨rfl, rfl⟩
    · rw [if_neg hk]
      constructor
      · show countUrl (applyBulkOps dbs.mongo ((d.rows.filter
            (fun a => a.url ∉ check_urls_exist ⟨true, true⟩ dbs
              (d.rows.map (fun a => a.url)) true true)).map
                (setDate p))).1 u = countUrl dbs.mongo u
        rw [countUrl_applyBulkOps, map_url_setDate]
        exact if_neg hu
      · show countUrl (dbs.ch ++ (d.rows.filter
            (fun a => a.url ∉ check_urls_exist ⟨true, true⟩ dbs
              (d.rows.map (fun a => a.url)) true true)).map
                (setDate p)) u = countUrl dbs.ch u
        rw [countUrl_append]
        have hz : countUrl ((d.rows.filter (fun a => a.url ∉
            check_urls_exist ⟨true, true⟩ dbs
              (d.rows.map (fun a => a.url)) true true)).map (setDate p)) u
            = 0 := by
          apply countUrl_eq_zero_of_not_mem
          rwa [map_url_setDate]
        omega
  refine ⟨check_urls_exist_eq dbs _, hmemE, ?_, ?_, hframe, ?_⟩
  · rw [hrun]
    by_cases hk : (d.rows.filter (fun a => a.url ∉
        check_urls_exist ⟨true, true⟩ dbs (d.rows.map (fun a => a.url))
          true true)).isEmpty = true
    · rw [if_pos hk, if_pos hk]
    · rw [if_neg hk, if_neg hk]
  · rw [hrun]
    by_cases hk : (d.rows.filter (fun a => a.url ∉
        check_urls_exist ⟨true, true⟩ dbs (d.rows.map (fun a => a.url))
          true true)).isEmpty = true
    · have hnil : (d.rows.filter (fun a => a.url ∉
          check_urls_exist ⟨true, true⟩ dbs (d.rows.map (fun a => a.url))
            true true)) = [] := List.isEmpty_iff.mp hk
      rw [if_pos hk, hnil]
      simp
    · rw [if_neg hk]
  · intro u hu
    exact hframe u (hEkept u hu)

/-- Witness for C1: a store already holding one of the two batch
articles; the batch's second article is the only one written. -/
theorem save_all_dbs_cross_dedup_witness :
    hasRequiredCols dfW = true ∧ dfW.isEmpty = false ∧
    crossDedupSpec p0 dbs0 dfW :=
  ⟨by decide, by decide,
   save_all_dbs_cross_dedup p0 dbs0 dfW (by decide) (by decide)⟩

end News
